import Mathlib

/-!
# yapdd: DNS request parameters, priority decoding and the request pipeline

A shallow embedding of the Go package `yapdd` (files `dns_request_params.go`,
`dns.go`, `yapdd.go`) together with the properties of its parameter builder,
its tri-state priority decoder and its request construction.

Conventions of the embedding:

* a Go `string` / `[]byte` is a list of bytes, a byte being a natural number
  below 256 (`GoString`); literals are written with `str`;
* Go's `int` is the 64-bit signed integer of the usual targets, carried as an
  `Int` together with explicit range checks; `uint16` / `uint32` values are
  natural numbers, truncated with an explicit `% 2 ^ 16` where the code
  converts;
* a Go map is an association list with distinct keys (`AList`); nothing
  observable depends on the order of its entries, because the only iteration
  over it (`Values.Encode`) sorts the keys first;
* the standard-library functions the package calls (`url.Values.Set`,
  `url.Values.Encode`, `url.QueryEscape`, `strconv.Itoa`, `strconv.Atoi`) are
  modelled after their Go sources, and so are `url.ParseQuery`,
  `url.QueryUnescape` and `strings.Cut`, which read the encoding back.
-/

namespace Yapdd

/-! ## Strings -/

/-- A Go string: a finite sequence of bytes. -/
abbrev GoString := List Nat

/-- The bytes of an ASCII literal. -/
def str (s : String) : GoString := s.toList.map Char.toNat

/-! ## `net/url`: escaping and `Values` -/

/-- Go `url.shouldEscape(c, encodeQueryComponent)`: every byte is escaped except
the unreserved ones, that is ASCII letters, digits and `-`, `_`, `.`, `~`. -/
def shouldEscape (c : Nat) : Bool :=
  if (97 ≤ c ∧ c ≤ 122) ∨ (65 ≤ c ∧ c ≤ 90) ∨ (48 ≤ c ∧ c ≤ 57) then false
  else if c = 45 ∨ c = 95 ∨ c = 46 ∨ c = 126 then false
  else true

/-- The digit table `"0123456789ABCDEF"` of `net/url`, indexed by a nibble. -/
def upperhex (d : Nat) : Nat := if d < 10 then 48 + d else 55 + d

/-- What `url.QueryEscape` writes for one byte: the byte itself when it is
unreserved, `+` for a space, and `%XX` (upper-case hexadecimal) otherwise. -/
def escapeByte (c : Nat) : GoString :=
  if shouldEscape c then
    if c = 32 then [43] else [37, upperhex (c / 16), upperhex (c % 16)]
  else [c]

/-- Go `url.QueryEscape`. -/
def QueryEscape (s : GoString) : GoString := s.flatMap escapeByte

/-- Go `url.Values`, a `map[string][]string`. -/
abbrev Values := AList (fun _ : GoString => List GoString)

/-- Go `url.Values.Set`: the key is bound to the one-element list `[value]`,
replacing whatever it was bound to. -/
def Values.Set (v : Values) (key value : GoString) : Values :=
  v.insert key [value]

/-- The inner loop of `url.Values.Encode`: the values of one key are appended
to the buffer as `key=value`, each preceded by `&` when the buffer is not
empty. -/
def encodeKey (keyEscaped : GoString) (vs : List GoString) (buf : GoString) : GoString :=
  vs.foldl
    (fun buf val =>
      (if buf.length > 0 then buf ++ [38] else buf) ++ keyEscaped ++ [61] ++ QueryEscape val)
    buf

/-- Go `url.Values.Encode`: the keys are collected and sorted, then every value
of every key is written as `key=value`, both escaped, separated by `&`. -/
def Values.Encode (v : Values) : GoString :=
  if v.keys.length = 0 then []
  else
    let keys := v.keys.insertionSort (· ≤ ·)
    keys.foldl (fun buf k => encodeKey (QueryEscape k) ((v.lookup k).getD []) buf) []

/-! ## `strconv`: decimal formatting -/

/-- The decimal digits of `n`, most significant first, written in front of
`acc`: what Go `strconv.formatBits` produces for base 10, one digit per step
from the least significant one (`fuel` bounds the number of digits). -/
def formatDec : Nat → Nat → GoString → GoString
  | 0, _, acc => acc
  | fuel + 1, n, acc =>
    if n < 10 then (48 + n) :: acc
    else formatDec fuel (n / 10) ((48 + n % 10) :: acc)

/-- Go `strconv.Itoa`: the decimal digits of `i`, after a `-` when `i` is
negative. -/
def Itoa (i : Int) : GoString :=
  if i < 0 then 45 :: formatDec (i.natAbs + 1) i.natAbs []
  else formatDec (i.natAbs + 1) i.natAbs []

/-! ## `dns_request_params.go` -/

/-- Go `DNSRecordType`: a string; the package names eight of them. -/
abbrev DNSRecordType := GoString

def DNSTypeSRV : DNSRecordType := str "SRV"
def DNSTypeTXT : DNSRecordType := str "TXT"
def DNSTypeNS : DNSRecordType := str "NS"
def DNSTypeMX : DNSRecordType := str "MX"
def DNSTypeSOA : DNSRecordType := str "SOA"
def DNSTypeA : DNSRecordType := str "A"
def DNSTypeAAAA : DNSRecordType := str "AAAA"
def DNSTypeCNAME : DNSRecordType := str "CNAME"

/-- Go `type DNSRequestParams url.Values`. -/
abbrev DNSRequestParams := Values

/-- Go `NewDNSParams`: the empty parameter set. -/
def NewDNSParams : DNSRequestParams := ∅

namespace DNSRequestParams

def domain (p : DNSRequestParams) (domain : GoString) : DNSRequestParams :=
  Values.Set p (str "domain") domain

def recordType (p : DNSRequestParams) (t : DNSRecordType) : DNSRequestParams :=
  Values.Set p (str "type") t

def recordID (p : DNSRequestParams) (id : Nat) : DNSRequestParams :=
  Values.Set p (str "record_id") (Itoa (Int.ofNat id))

def AdminMail (p : DNSRequestParams) (email : GoString) : DNSRequestParams :=
  Values.Set p (str "admin_mail") email

def Content (p : DNSRequestParams) (content : GoString) : DNSRequestParams :=
  Values.Set p (str "content") content

def Priority (p : DNSRequestParams) (priority : Nat) : DNSRequestParams :=
  Values.Set p (str "priority") (Itoa (Int.ofNat priority))

def Weight (p : DNSRequestParams) (weight : Nat) : DNSRequestParams :=
  Values.Set p (str "weight") (Itoa (Int.ofNat weight))

def Port (p : DNSRequestParams) (port : Nat) : DNSRequestParams :=
  Values.Set p (str "port") (Itoa (Int.ofNat port))

def Target (p : DNSRequestParams) (target : GoString) : DNSRequestParams :=
  Values.Set p (str "target") target

def Subdomain (p : DNSRequestParams) (subdomain : GoString) : DNSRequestParams :=
  Values.Set p (str "subdomain") subdomain

def TTL (p : DNSRequestParams) (ttl : Nat) : DNSRequestParams :=
  Values.Set p (str "ttl") (Itoa (Int.ofNat ttl))

def Refresh (p : DNSRequestParams) (refresh : Nat) : DNSRequestParams :=
  Values.Set p (str "refresh") (Itoa (Int.ofNat refresh))

def SetRetry (p : DNSRequestParams) (retry : Nat) : DNSRequestParams :=
  Values.Set p (str "retry") (Itoa (Int.ofNat retry))

def Expire (p : DNSRequestParams) (expire : Nat) : DNSRequestParams :=
  Values.Set p (str "expire") (Itoa (Int.ofNat expire))

def NegCache (p : DNSRequestParams) (negcache : Nat) : DNSRequestParams :=
  Values.Set p (str "neg_cache") (Itoa (Int.ofNat negcache))

/-- Go `body`: a reader over the encoded parameter set; the model is the
string it reads. -/
def body (p : DNSRequestParams) : GoString := Values.Encode p

end DNSRequestParams

/-! ## `strconv`: parsing -/

/-- Go `strconv.IntSize` on the 64-bit targets. -/
def intSize : Nat := 64

/-- The two errors of `strconv`: `ErrSyntax` and `ErrRange`. -/
inductive NumErrKind where
  | ErrSyntax
  | ErrRange
  deriving DecidableEq, Repr

/-- Go `strconv.NumError`: the failing function, the input and the cause. -/
structure NumError where
  Func : GoString
  Num : GoString
  Err : NumErrKind
  deriving DecidableEq, Repr

/-- The digit loop of the fast path of `strconv.Atoi`: `ch -= '0'` in byte
arithmetic, `ch > 9` is a syntax error (`none`), otherwise `n = n*10 + ch`. -/
def atoiDigits : GoString → Nat → Option Nat
  | [], n => some n
  | ch :: s, n =>
    if (ch + 256 - 48) % 256 > 9 then none
    else atoiDigits s (n * 10 + (ch + 256 - 48) % 256)

/-- The digit loop of `strconv.ParseUint(s, 10, 64)`: a byte that is not a
decimal digit is a syntax error (a letter decodes to a digit of 10 or more,
which base 10 rejects in the same way); `n >= cutoff` and a sum that wraps
around 64 bits or exceeds `maxVal` are range errors, reported as soon as they
are met. -/
def parseUintDigits : GoString → Nat → Except NumErrKind Nat
  | [], n => .ok n
  | c :: s, n =>
    if 48 ≤ c ∧ c ≤ 57 then
      if n ≥ (2 ^ 64 - 1) / 10 + 1 then .error .ErrRange
      else if (n * 10 + (c - 48)) % 2 ^ 64 < n * 10 ∨ (n * 10 + (c - 48)) % 2 ^ 64 > 2 ^ 64 - 1 then
        .error .ErrRange
      else parseUintDigits s ((n * 10 + (c - 48)) % 2 ^ 64)
    else .error .ErrSyntax

/-- Go `strconv.ParseUint(s, 10, 64)`. -/
def ParseUint (s : GoString) : Except NumErrKind Nat :=
  if s = [] then .error .ErrSyntax else parseUintDigits s 0

/-- Go `strconv.ParseInt(s, 10, 0)`: a leading sign is picked off, the rest is
parsed unsigned (a range error there leaves `un = maxVal`), and the result is
checked against the cutoff `2 ^ (intSize - 1)`. -/
def ParseInt (s : GoString) : Except NumErrKind Int :=
  if s = [] then .error .ErrSyntax
  else
    let neg := s.head? = some 45
    let s1 := if s.head? = some 43 ∨ s.head? = some 45 then s.tail else s
    match ParseUint s1 with
    | .error .ErrSyntax => .error .ErrSyntax
    | r =>
      let un := match r with
        | .ok n => n
        | .error _ => 2 ^ 64 - 1
      if ¬ neg ∧ un ≥ 2 ^ (intSize - 1) then .error .ErrRange
      else if neg ∧ un > 2 ^ (intSize - 1) then .error .ErrRange
      else .ok (if neg then -(un : Int) else (un : Int))

/-- Go `strconv.Atoi`: strings of 1 to 18 bytes take the fast path (sign, then
the digit loop, no overflow possible); all others go through `ParseInt`. Every
error is a `NumError` of function `Atoi` carrying the whole input. -/
def Atoi (s : GoString) : Except NumError Int :=
  if 0 < s.length ∧ s.length < 19 then
    let s1 := if s.head? = some 45 ∨ s.head? = some 43 then s.tail else s
    if (s.head? = some 45 ∨ s.head? = some 43) ∧ s1.length < 1 then
      .error ⟨str "Atoi", s, .ErrSyntax⟩
    else
      match atoiDigits s1 0 with
      | none => .error ⟨str "Atoi", s, .ErrSyntax⟩
      | some n => .ok (if s.head? = some 45 then -(n : Int) else (n : Int))
  else
    match ParseInt s with
    | .error k => .error ⟨str "Atoi", s, k⟩
    | .ok i => .ok i

/-! ## `dns.go`: the priority -/

/-- Go `DNSPriority`: a `uint16` value and the flag telling it is present. -/
structure DNSPriority where
  value : Nat
  ok : Bool
  deriving DecidableEq, Repr

/-- Go `(*DNSPriority).UnmarshalJSON`. The result is the receiver after the
call together with the returned error (`none` for `nil`): on `""` the receiver
becomes absent; otherwise the bytes go to `strconv.Atoi`, whose error is
returned with the receiver untouched, and whose result is stored as
`uint16(i)`, that is modulo `2 ^ 16`, with the flag set. -/
def DNSPriority.UnmarshalJSON (p : DNSPriority) (b : GoString) : DNSPriority × Option NumError :=
  if b = str "\"\"" then ({ p with value := 0, ok := false }, none)
  else
    match Atoi b with
    | .error err => (p, some err)
    | .ok i => ({ p with value := (i % 2 ^ 16).toNat, ok := true }, none)

/-- Go `(*DNSPriority).Get`. -/
def DNSPriority.Get (p : DNSPriority) : Nat × Bool := (p.value, p.ok)

/-- A decimal integer literal: an optional sign `+` or `-` followed by one or
more ASCII digits. -/
def isDecimalLiteral (b : GoString) : Bool :=
  match b with
  | [] => false
  | c :: rest =>
    if c = 43 ∨ c = 45 then rest ≠ [] ∧ rest.all (fun d => 48 ≤ d ∧ d ≤ 57)
    else b.all (fun d => 48 ≤ d ∧ d ≤ 57)

/-- A byte string: every element is below 256. -/
def IsBytes (b : GoString) : Prop := ∀ c ∈ b, c < 256

/-! ## `dns.go`: records and responses -/

/-- Go `DNSRecord` (`Type_` is the field `Type`). -/
structure DNSRecord where
  ID : Nat
  Type_ : DNSRecordType
  Domain : GoString
  Subdomain : GoString
  FQDN : GoString
  TTL : Nat
  Content : GoString
  Priority : DNSPriority
  Operation : GoString
  deriving DecidableEq, Repr

/-- Go `DNSResponse`; `Record` is a pointer, `none` when nil. -/
structure DNSResponse where
  Domain : GoString
  RecordID : Nat
  Record : Option DNSRecord
  Success : GoString
  Error : GoString
  deriving DecidableEq, Repr

/-- Go `DNSListResponse`; `Records` is a slice of pointers. -/
structure DNSListResponse where
  Domain : GoString
  Records : List (Option DNSRecord)
  Success : GoString
  Error : GoString
  deriving DecidableEq, Repr

/-- The zero value of `DNSResponse`, what `var r DNSResponse` declares. -/
def DNSResponse.zero : DNSResponse := ⟨[], 0, none, [], []⟩

/-- The zero value of `DNSListResponse`. -/
def DNSListResponse.zero : DNSListResponse := ⟨[], [], [], []⟩

/-! ## `net/http`: requests, responses and the client behind `httpCli` -/

/-- A Go `error`, carried as its message. -/
abbrev GoError := GoString

/-- Go `http.Header`, a `map[string][]string`. -/
abbrev Header := AList (fun _ : GoString => List GoString)

/-- Go `http.Header.Set` for a key that is already in canonical form, as the
two keys the package sets are (`Content-Type`, `Authorization`). -/
def Header.Set (h : Header) (key value : GoString) : Header := h.insert key [value]

/-- The parts of a Go `http.Request` the package fills in; `Body` is `none`
for a nil body. -/
structure Request where
  Method : GoString
  URL : GoString
  Body : Option GoString
  Header : Header

/-- The parts of a Go `http.Response` the package reads. -/
structure Response where
  StatusCode : Nat
  Status : GoString
  Body : GoString

/-- What stands behind `httpCli.Do`: the exchange with the remote service, an
external collaborator; it answers a request with a response or an error. -/
abbrev HTTPClient := Request → Except GoError Response

/-- What stands behind `json.NewDecoder(body).Decode(v)`: from the body and the
current value of the result object, the value after decoding and the error. -/
abbrev Decoder (α : Type) := GoString → α → α × Option GoError

def MethodGet : GoString := str "GET"
def MethodPost : GoString := str "POST"
def StatusOK : Nat := 200

/-- Go `http.NewRequest` for the methods and URLs of this package: a request
with the given method, URL and body and an empty header. (It fails on an
invalid method or an unparseable URL only; the package passes `GET` or `POST`
and a fixed URL followed by an escaped query.) -/
def NewRequest (method url : GoString) (body : Option GoString) : Except GoError Request :=
  .ok { Method := method, URL := url, Body := body, Header := ∅ }

/-! ## `yapdd.go`: the client -/

def clientTypeAdmin : GoString := str "admin"
def clientTypeRegistrar : GoString := str "registrar"

/-- Go `Client`; `httpCli` is a pointer, `none` when nil. -/
structure Client where
  httpCli : Option HTTPClient
  clientType : GoString
  pddToken : GoString
  oauthToken : GoString

/-- Go `type Option func(*Client)`: the effect of an option on the client under
construction. -/
abbrev ClientOption := Client → Client

/-- Go `AsRegistrar`. -/
def AsRegistrar (oauthToken : GoString) : ClientOption :=
  fun cli => { cli with clientType := clientTypeRegistrar, oauthToken := oauthToken }

/-- Go `WithHTTPClient`. -/
def WithHTTPClient (httpCli : Option HTTPClient) : ClientOption :=
  fun cli => { cli with httpCli := httpCli }

/-- Go `New`; `DefaultClient` stands for the global `http.DefaultClient`. -/
def New (DefaultClient : HTTPClient) (token : GoString) (opts : List ClientOption) : Client :=
  let cli : Client :=
    { httpCli := none, clientType := clientTypeAdmin, pddToken := token, oauthToken := [] }
  let cli := opts.foldl (fun cli o => o cli) cli
  if cli.httpCli.isNone then { cli with httpCli := some DefaultClient } else cli

/-- Go `(*Client).getURL`. -/
def Client.getURL (c : Client) (section_ action : GoString) (params : Option DNSRequestParams) :
    GoString :=
  let u := str "https://pddimp.yandex.ru/api2/" ++ c.clientType ++ str "/" ++ section_ ++
    str "/" ++ action
  match params with
  | some p => u ++ str "?" ++ Values.Encode p
  | none => u

/-- The outcome of `(*Client).do`: the request handed to `httpCli.Do`, the
result object `v` after the call, and the returned error. -/
structure DoResult (α : Type) where
  sent : Request
  v : α
  err : Option GoError

/-- Go `(*Client).do`: the three headers are set, the request is handed to the
HTTP client; a transport error is returned as it is; a status other than 200
is an error made from the status text; otherwise the body is decoded into `v`.
The result is `none` when `httpCli` is nil, where the Go code panics. The
context, which carries cancellation only, is left out. -/
def Client.do {α : Type} (c : Client) (decode : Decoder α) (req : Request) (v : α) :
    Option (DoResult α) :=
  let h := Header.Set req.Header (str "Content-Type") (str "application/x-www-form-urlencoded")
  let h := h.insert (str "PddToken") [c.pddToken]
  let h :=
    if c.clientType = clientTypeRegistrar then
      Header.Set h (str "Authorization") (str "OAuth " ++ c.oauthToken)
    else h
  let req := { req with Header := h }
  match c.httpCli with
  | none => none
  | some httpCli =>
    match httpCli req with
    | .error err => some { sent := req, v := v, err := some err }
    | .ok resp =>
      if resp.StatusCode ≠ StatusOK then
        some { sent := req, v := v, err := some (str "unexpected response status: " ++ resp.Status) }
      else
        let r := decode resp.Body v
        some { sent := req, v := r.1, err := r.2 }

/-! ## `dns.go`: the four calls -/

/-- The outcome of a call: the request that was sent (if one was), the returned
response pointer (`none` for nil) and the returned error. -/
structure Call (α : Type) where
  sent : Option Request
  resp : Option α
  err : Option GoError

/-- The rest of each call once the request is built: `var r T`, `c.do`, and
`return &r, err`; a failure of `http.NewRequest` returns `nil, err`. -/
def Client.finish {α : Type} (c : Client) (decode : Decoder α) (zero : α)
    (req : Except GoError Request) : Option (Call α) :=
  match req with
  | .error err => some { sent := none, resp := none, err := some err }
  | .ok req =>
    match c.do decode req zero with
    | none => none
    | some r => some { sent := some r.sent, resp := some r.v, err := r.err }

/-- Go `(*Client).DNSAdd`, for a non-nil `params`. The parameter set is a map
behind a pointer, so the two `Set` calls act on the caller's set: the first
component is that set after the call. -/
def Client.DNSAdd (c : Client) (decode : Decoder DNSResponse) (domain : GoString)
    (recordType : DNSRecordType) (params : DNSRequestParams) :
    DNSRequestParams × Option (Call DNSResponse) :=
  let params := DNSRequestParams.domain (DNSRequestParams.recordType params recordType) domain
  (params,
    c.finish decode DNSResponse.zero
      (NewRequest MethodPost (c.getURL (str "dns") (str "add") none)
        (some (DNSRequestParams.body params))))

/-- Go `(*Client).DNSList`. -/
def Client.DNSList (c : Client) (decode : Decoder DNSListResponse) (domain : GoString) :
    Option (Call DNSListResponse) :=
  let params := DNSRequestParams.domain NewDNSParams domain
  c.finish decode DNSListResponse.zero
    (NewRequest MethodGet (c.getURL (str "dns") (str "list") (some params)) none)

/-- Go `(*Client).DNSEdit`; as in `DNSAdd`, the first component is the caller's
parameter set after the call. -/
def Client.DNSEdit (c : Client) (decode : Decoder DNSResponse) (domain : GoString)
    (recordID : Nat) (params : DNSRequestParams) :
    DNSRequestParams × Option (Call DNSResponse) :=
  let params := DNSRequestParams.domain (DNSRequestParams.recordID params recordID) domain
  (params,
    c.finish decode DNSResponse.zero
      (NewRequest MethodPost (c.getURL (str "dns") (str "edit") none)
        (some (DNSRequestParams.body params))))

/-- Go `(*Client).DNSDel`. -/
def Client.DNSDel (c : Client) (decode : Decoder DNSResponse) (domain : GoString)
    (recordID : Nat) : Option (Call DNSResponse) :=
  let params := DNSRequestParams.domain (DNSRequestParams.recordID NewDNSParams recordID) domain
  c.finish decode DNSResponse.zero
    (NewRequest MethodPost (c.getURL (str "dns") (str "del") none)
      (some (DNSRequestParams.body params)))

/-! ## Sequences of setter calls -/

/-- One call of a setter of `DNSRequestParams`, with its argument. -/
inductive Setter where
  | domain (domain : GoString)
  | recordType (t : DNSRecordType)
  | recordID (id : Nat)
  | AdminMail (email : GoString)
  | Content (content : GoString)
  | Priority (priority : Nat)
  | Weight (weight : Nat)
  | Port (port : Nat)
  | Target (target : GoString)
  | Subdomain (subdomain : GoString)
  | TTL (ttl : Nat)
  | Refresh (refresh : Nat)
  | SetRetry (retry : Nat)
  | Expire (expire : Nat)
  | NegCache (negcache : Nat)

/-- The call performed on a parameter set. -/
def Setter.apply : Setter → DNSRequestParams → DNSRequestParams
  | .domain d, p => DNSRequestParams.domain p d
  | .recordType t, p => DNSRequestParams.recordType p t
  | .recordID id, p => DNSRequestParams.recordID p id
  | .AdminMail e, p => DNSRequestParams.AdminMail p e
  | .Content c, p => DNSRequestParams.Content p c
  | .Priority n, p => DNSRequestParams.Priority p n
  | .Weight n, p => DNSRequestParams.Weight p n
  | .Port n, p => DNSRequestParams.Port p n
  | .Target t, p => DNSRequestParams.Target p t
  | .Subdomain s, p => DNSRequestParams.Subdomain p s
  | .TTL n, p => DNSRequestParams.TTL p n
  | .Refresh n, p => DNSRequestParams.Refresh p n
  | .SetRetry n, p => DNSRequestParams.SetRetry p n
  | .Expire n, p => DNSRequestParams.Expire p n
  | .NegCache n, p => DNSRequestParams.NegCache p n

/-- The name of the field a setter writes (the key it passes to `Set`). -/
def Setter.field : Setter → GoString
  | .domain _ => str "domain"
  | .recordType _ => str "type"
  | .recordID _ => str "record_id"
  | .AdminMail _ => str "admin_mail"
  | .Content _ => str "content"
  | .Priority _ => str "priority"
  | .Weight _ => str "weight"
  | .Port _ => str "port"
  | .Target _ => str "target"
  | .Subdomain _ => str "subdomain"
  | .TTL _ => str "ttl"
  | .Refresh _ => str "refresh"
  | .SetRetry _ => str "retry"
  | .Expire _ => str "expire"
  | .NegCache _ => str "neg_cache"

/-- The string a setter stores: its argument, formatted in decimal when it is a
number. -/
def Setter.value : Setter → GoString
  | .domain d => d
  | .recordType t => t
  | .recordID id => Itoa (Int.ofNat id)
  | .AdminMail e => e
  | .Content c => c
  | .Priority n => Itoa (Int.ofNat n)
  | .Weight n => Itoa (Int.ofNat n)
  | .Port n => Itoa (Int.ofNat n)
  | .Target t => t
  | .Subdomain s => s
  | .TTL n => Itoa (Int.ofNat n)
  | .Refresh n => Itoa (Int.ofNat n)
  | .SetRetry n => Itoa (Int.ofNat n)
  | .Expire n => Itoa (Int.ofNat n)
  | .NegCache n => Itoa (Int.ofNat n)

/-- A chain of setter calls, applied from left to right. -/
def applyAll (cs : List Setter) (p : DNSRequestParams) : DNSRequestParams :=
  cs.foldl (fun p c => c.apply p) p

/-! ## Reading a serialized parameter set -/

/-- The segments of a serialized parameter set: the pieces between the `&`
separators; the empty string has none. -/
def segments (s : GoString) : List GoString :=
  if s = [] then [] else s.splitOn 38

/-- The field name of a segment: what stands before its first `=`. -/
def fieldName (seg : GoString) : GoString := seg.takeWhile (· ≠ 61)

/-- The field names of a serialized parameter set, in the order they appear. -/
def fieldNames (s : GoString) : List GoString := (segments s).map fieldName

/-! ## The shape of the encoder's output -/

/-- One step of the encoder's buffer -/
def step (buf seg : GoString) : GoString := (if buf.length > 0 then buf ++ [38] else buf) ++ seg

/-- The `key=value` segments of one key. -/
def keySegments (v : Values) (k : GoString) : List GoString :=
  ((v.lookup k).getD []).map (fun val => QueryEscape k ++ [61] ++ QueryEscape val)

/-- The segments `Values.Encode` writes, in the order it writes them. -/
def encodedSegments (v : Values) : List GoString :=
  (v.keys.insertionSort (· ≤ ·)).flatMap (keySegments v)

/-- Every key of the set is a plain field name bound to exactly one value. -/
def Built (p : DNSRequestParams) : Prop :=
  ∀ k ∈ p.keys, (QueryEscape k = k ∧ 61 ∉ k) ∧ ∃ val, p.lookup k = some [val]

/-! ## Clients and the requests they send -/

/-- The options the package exports. -/
inductive Opt where
  | AsRegistrar (oauthToken : GoString)
  | WithHTTPClient (httpCli : Option HTTPClient)

/-- The `Option` value an exported option stands for. -/
def Opt.toOption : Opt → ClientOption
  | .AsRegistrar t => Yapdd.AsRegistrar t
  | .WithHTTPClient h => Yapdd.WithHTTPClient h

/-- The OAuth token of the last `AsRegistrar` among the options, `acc` when
there is none. -/
def lastRegistrar (acc : Option GoString) (opts : List Opt) : Option GoString :=
  opts.foldl
    (fun acc o =>
      match o with
      | .AsRegistrar t => some t
      | .WithHTTPClient _ => acc)
    acc

/-- One of the four calls of the client, with its arguments. -/
inductive Operation where
  | add (domain : GoString) (recordType : DNSRecordType) (params : DNSRequestParams)
  | list (domain : GoString)
  | edit (domain : GoString) (recordID : Nat) (params : DNSRequestParams)
  | del (domain : GoString) (recordID : Nat)

/-- The last segment of the URL of a call. -/
def Operation.action : Operation → GoString
  | .add _ _ _ => str "add"
  | .list _ => str "list"
  | .edit _ _ _ => str "edit"
  | .del _ _ => str "del"

/-- The request a call hands to the HTTP client, `none` when it sends none. -/
def Client.request (c : Client) (decA : Decoder DNSResponse) (decL : Decoder DNSListResponse) :
    Operation → Option Request
  | .add d t p => (c.DNSAdd decA d t p).2.bind (fun r => r.sent)
  | .list d => (c.DNSList decL d).bind (fun r => r.sent)
  | .edit d id p => (c.DNSEdit decA d id p).2.bind (fun r => r.sent)
  | .del d id => (c.DNSDel decA d id).bind (fun r => r.sent)

/-- The header `(*Client).do` leaves on a request whose header was `h`. -/
def Client.headers (c : Client) (h : Header) : Header :=
  let h := Header.Set h (str "Content-Type") (str "application/x-www-form-urlencoded")
  let h := h.insert (str "PddToken") [c.pddToken]
  if c.clientType = clientTypeRegistrar then
    Header.Set h (str "Authorization") (str "OAuth " ++ c.oauthToken)
  else h

/-- The part of a URL that precedes the query string: what stands before the
first `?`. -/
def beforeQuery (u : GoString) : GoString := u.takeWhile (· ≠ 63)

/-! ## `net/url`: unescaping and `ParseQuery` -/

/-- Go `url.ishex`. -/
def ishex (c : Nat) : Bool :=
  (48 ≤ c ∧ c ≤ 57) ∨ (97 ≤ c ∧ c ≤ 102) ∨ (65 ≤ c ∧ c ≤ 70)

/-- Go `url.unhex`. -/
def unhex (c : Nat) : Nat :=
  if 48 ≤ c ∧ c ≤ 57 then c - 48
  else if 97 ≤ c ∧ c ≤ 102 then c - 97 + 10
  else if 65 ≤ c ∧ c ≤ 70 then c - 65 + 10
  else 0

/-- The first loop of Go `url.unescape` in query mode: every `%` must be
followed by two hexadecimal digits; the result is the offending escape (at
most three bytes from the `%` on), `none` when there is none. -/
def unescapeCheck : GoString → Option GoString
  | [] => none
  | c :: rest =>
    if c = 37 then
      match rest with
      | a :: b :: rest2 =>
        if ishex a ∧ ishex b then unescapeCheck rest2 else some ((c :: rest).take 3)
      | _ => some ((c :: rest).take 3)
    else unescapeCheck rest

/-- The second loop of Go `url.unescape` in query mode: `%XX` becomes the byte
`unhex(X)<<4 | unhex(X)`, `+` becomes a space, every other byte is copied. (The
first loop has made sure that two bytes follow every `%`.) -/
def unescapeBuild : GoString → GoString
  | [] => []
  | c :: rest =>
    if c = 37 then
      match rest with
      | a :: b :: rest2 => ((unhex a <<< 4) % 256 ||| unhex b) :: unescapeBuild rest2
      | _ => []
    else if c = 43 then 32 :: unescapeBuild rest
    else c :: unescapeBuild rest

/-- Go `url.QueryUnescape`: the error is the `EscapeError`, carried as the
offending escape; a string without `%` and `+` is returned as it is. -/
def QueryUnescape (s : GoString) : Except GoString GoString :=
  match unescapeCheck s with
  | some bad => .error bad
  | none => if 37 ∉ s ∧ 43 ∉ s then .ok s else .ok (unescapeBuild s)

/-- Go `strings.Cut(s, sep)` for a one-byte separator: the text before the
first `sep`, the text after it, and whether `sep` was found. -/
def Cut (s : GoString) (sep : Nat) : GoString × GoString × Bool :=
  match s with
  | [] => ([], [], false)
  | c :: rest =>
    if c = sep then ([], rest, true)
    else (c :: (Cut rest sep).1, (Cut rest sep).2.1, (Cut rest sep).2.2)

/-- The errors of `url.ParseQuery`: `invalid semicolon separator in query`, and
the `EscapeError` of a key or value. -/
inductive QueryError where
  | semicolon
  | escape (s : GoString)
  deriving DecidableEq, Repr

/-- The loop of Go `url.parseQuery`: while the query is not empty, the text up
to the next `&` is cut off; one with a `;` sets the error, an empty one is
skipped; otherwise it is cut at its first `=`, key and value are unescaped (the
first failure is kept as the error) and the value is appended to `m[key]`.
Every round shortens the query, so `fuel` above its length is never used up.
(Go releases that still split at `;` behave alike on a query without `;`.) -/
def parseQuery : Nat → Values → GoString → Option QueryError → Values × Option QueryError
  | 0, m, _, err => (m, err)
  | fuel + 1, m, query, err =>
    if query = [] then (m, err)
    else if 59 ∈ (Cut query 38).1 then
      parseQuery fuel m (Cut query 38).2.1 (some .semicolon)
    else if (Cut query 38).1 = [] then parseQuery fuel m (Cut query 38).2.1 err
    else
      match QueryUnescape (Cut (Cut query 38).1 61).1 with
      | .error e1 =>
        parseQuery fuel m (Cut query 38).2.1 (if err.isNone then some (.escape e1) else err)
      | .ok key =>
        match QueryUnescape (Cut (Cut query 38).1 61).2.1 with
        | .error e1 =>
          parseQuery fuel m (Cut query 38).2.1 (if err.isNone then some (.escape e1) else err)
        | .ok value =>
          parseQuery fuel (m.insert key ((m.lookup key).getD [] ++ [value]))
            (Cut query 38).2.1 err

/-- Go `url.ParseQuery`. -/
def ParseQuery (query : GoString) : Values × Option QueryError :=
  parseQuery (query.length + 1) ∅ query none

/-- The value of the last call of the chain that writes the field `k`, `acc`
when no call does. -/
def lastValue (acc : Option GoString) (cs : List Setter) (k : GoString) : Option GoString :=
  cs.foldl (fun acc c => if c.field = k then some c.value else acc) acc

/-- Every key of the set is the field of a setter, bound to exactly one value,
a byte string. -/
def BuiltBytes (p : DNSRequestParams) : Prop :=
  ∀ k ∈ p.keys, (∃ c : Setter, c.field = k) ∧ ∃ val, IsBytes val ∧ p.lookup k = some [val]

/-- A chain of calls whose values hold `%`, `+`, a space, `&`, `=`, `;`, bytes
above 127, a zero byte and the empty string, and which sets `content` twice. -/
def roundTripExample : List Setter :=
  [.Content [0, 255, 37, 43, 32, 38, 61, 59, 200], .Target [], .TTL 9,
   .Content (str "a b&c=d%+" ++ [195, 169])]

/-! # Lemmas -/

/-! ## The encoder writes an `&`-separated list -/

theorem intercalate_cons (sep s : GoString) (segs : List GoString) :
    sep.intercalate (s :: segs) = s ++ (segs.map (sep ++ ·)).flatten := by
  induction segs generalizing s with
  | nil => simp [List.intercalate]
  | cons t segs ih =>
    have := ih t
    simp only [List.intercalate] at this ⊢
    simp [List.intersperse, this]

theorem foldl_step (segs : List GoString) (buf : GoString) (hbuf : buf ≠ [])  :
    segs.foldl step buf = buf ++ (segs.map ([38] ++ ·)).flatten := by
  induction segs generalizing buf with
  | nil => simp
  | cons s segs ih =>
    have hb : 0 < buf.length := List.length_pos.mpr hbuf
    have h1 : step buf s = buf ++ [38] ++ s := by simp [step, hb]
    rw [List.foldl_cons, h1, ih _ (by simp [hbuf])]
    simp

theorem foldl_step_nil (segs : List GoString) (hne : ∀ s ∈ segs, s ≠ []) :
    segs.foldl step [] = [38].intercalate segs := by
  cases segs with
  | nil => simp [List.intercalate]
  | cons s segs =>
    have hs : s ≠ [] := hne s (by simp)
    have h1 : step [] s = s := by simp [step]
    rw [List.foldl_cons, h1, foldl_step _ _ hs, intercalate_cons]

theorem encodeKey_eq (kE : GoString) (vs : List GoString) (buf : GoString) :
    encodeKey kE vs buf = (vs.map (fun val => kE ++ [61] ++ QueryEscape val)).foldl step buf := by
  unfold encodeKey
  rw [List.foldl_map]
  congr 1
  funext b val
  simp [step, List.append_assoc]

theorem foldl_encodeKey (v : Values) (keys : List GoString) (buf : GoString) :
    keys.foldl (fun buf k => encodeKey (QueryEscape k) ((v.lookup k).getD []) buf) buf =
      (keys.flatMap (keySegments v)).foldl step buf := by
  induction keys generalizing buf with
  | nil => simp
  | cons k keys ih =>
    simp only [List.foldl_cons, List.flatMap_cons, List.foldl_append]
    rw [ih, encodeKey_eq]
    rfl

theorem Encode_eq_intercalate (v : Values) :
    v.Encode = [38].intercalate (encodedSegments v) := by
  unfold Values.Encode encodedSegments
  split
  · rename_i h
    have : v.keys = [] := List.length_eq_zero.mp h
    simp [this, List.intercalate]
  · simp only []
    rw [foldl_encodeKey, foldl_step_nil]
    intro s hs
    simp only [List.mem_flatMap, keySegments, List.mem_map] at hs
    obtain ⟨k, _, val, _, rfl⟩ := hs
    simp

theorem upperhex_ne (d : Nat) : upperhex d ≠ 38 ∧ upperhex d ≠ 61 := by
  unfold upperhex
  split <;> omega

theorem escapeByte_clean (c x : Nat) (hx : x ∈ escapeByte c) : x ≠ 38 ∧ x ≠ 61 := by
  unfold escapeByte at hx
  split at hx
  · split at hx
    · simp at hx; omega
    · simp at hx
      rcases hx with rfl | rfl | rfl
      · omega
      · exact upperhex_ne _
      · exact upperhex_ne _
  · rename_i h
    simp at hx
    subst hx
    unfold shouldEscape at h
    split at h
    · omega
    · split at h
      · omega
      · simp at h

theorem QueryEscape_clean (s : GoString) (x : Nat) (hx : x ∈ QueryEscape s) : x ≠ 38 ∧ x ≠ 61 := by
  simp only [QueryEscape, List.mem_flatMap] at hx
  obtain ⟨c, _, hc⟩ := hx
  exact escapeByte_clean c x hc


/-! ## What a chain of setters builds -/

theorem Setter.apply_eq (c : Setter) (p : DNSRequestParams) :
    c.apply p = Values.Set p c.field c.value := by
  cases c <;> rfl

/-- The field names are made of bytes `url.QueryEscape` leaves alone, and
contain no `=`. -/
theorem Setter.field_plain (c : Setter) :
    QueryEscape c.field = c.field ∧ 61 ∉ c.field := by
  cases c <;> simp only [Setter.field] <;> decide

theorem mem_applyAll (cs : List Setter) (p : DNSRequestParams) (k : GoString) :
    k ∈ (applyAll cs p).keys ↔ k ∈ p.keys ∨ k ∈ cs.map Setter.field := by
  induction cs generalizing p with
  | nil => simp [applyAll]
  | cons c cs ih =>
    have h := ih (c.apply p)
    simp only [applyAll, List.foldl_cons] at h ⊢
    rw [h, Setter.apply_eq, Values.Set, ← AList.mem_keys, AList.mem_insert, AList.mem_keys]
    simp only [List.map_cons, List.mem_cons]
    tauto

theorem Built_apply (c : Setter) (p : DNSRequestParams) (hp : Built p) : Built (c.apply p) := by
  intro k hk
  rw [Setter.apply_eq, Values.Set] at hk ⊢
  by_cases h : k = c.field
  · subst h
    exact ⟨c.field_plain, c.value, AList.lookup_insert _⟩
  · rw [← AList.mem_keys, AList.mem_insert, AList.mem_keys] at hk
    rw [AList.lookup_insert_ne h]
    exact hp k (hk.resolve_left h)

theorem Built_applyAll (cs : List Setter) (p : DNSRequestParams) (hp : Built p) :
    Built (applyAll cs p) := by
  induction cs generalizing p with
  | nil => exact hp
  | cons c cs ih => exact ih _ (Built_apply c p hp)

theorem Built_new : Built NewDNSParams := by
  intro k hk
  simp [NewDNSParams] at hk

/-! ## Reading the encoding back -/

theorem encodedSegments_clean (v : Values) : ∀ seg ∈ encodedSegments v, 38 ∉ seg := by
  intro seg hseg h38
  simp only [encodedSegments, List.mem_flatMap, keySegments, List.mem_map] at hseg
  obtain ⟨k, _, val, _, rfl⟩ := hseg
  simp only [List.mem_append, List.mem_singleton] at h38
  rcases h38 with (h | h) | h
  · exact (QueryEscape_clean _ _ h).1 rfl
  · omega
  · exact (QueryEscape_clean _ _ h).1 rfl

theorem intercalate_ne_nil (segs : List GoString) (h : ∃ s ∈ segs, s ≠ []) :
    [38].intercalate segs ≠ [] := by
  cases segs with
  | nil => simp at h
  | cons s segs =>
    rw [intercalate_cons]
    cases segs with
    | nil => simpa using h
    | cons t segs => simp

theorem segments_Encode (v : Values) : segments v.Encode = encodedSegments v := by
  rw [Encode_eq_intercalate]
  unfold segments
  by_cases h : encodedSegments v = []
  · simp [h, List.intercalate]
  · have hne : [38].intercalate (encodedSegments v) ≠ [] := by
      apply intercalate_ne_nil
      obtain ⟨s, hs⟩ := List.exists_mem_of_ne_nil _ h
      refine ⟨s, hs, ?_⟩
      simp only [encodedSegments, List.mem_flatMap, keySegments, List.mem_map] at hs
      obtain ⟨k, _, val, _, rfl⟩ := hs
      simp
    rw [if_neg hne]
    exact List.splitOn_intercalate _ 38 (encodedSegments_clean v) h

theorem fieldName_segment (k rest : GoString) (hk : 61 ∉ k) :
    fieldName (k ++ [61] ++ rest) = k := by
  unfold fieldName
  induction k with
  | nil => simp [List.takeWhile]
  | cons a k ih =>
    have ha : a ≠ 61 := fun h => hk (by simp [h])
    have hk2 : 61 ∉ k := fun h => hk (by simp [h])
    have := ih hk2
    simp only [List.cons_append, List.takeWhile_cons]
    simp [ha]
    simpa using this

theorem keySegments_built (p : DNSRequestParams) (hp : Built p) (k : GoString) (hk : k ∈ p.keys) :
    ∃ val, p.lookup k = some [val] ∧ keySegments p k = [k ++ [61] ++ QueryEscape val] := by
  obtain ⟨⟨hq, _⟩, val, hval⟩ := hp k hk
  exact ⟨val, hval, by simp [keySegments, hval, hq]⟩

theorem fieldNames_segments (p : DNSRequestParams) (hp : Built p) (keys : List GoString)
    (hkeys : ∀ k ∈ keys, k ∈ p.keys) :
    (keys.flatMap (keySegments p)).map fieldName = keys := by
  induction keys with
  | nil => simp
  | cons k keys ih =>
    obtain ⟨val, _, hseg⟩ := keySegments_built p hp k (hkeys k (by simp))
    rw [List.flatMap_cons, List.map_append, ih (fun j hj => hkeys j (by simp [hj])), hseg]
    have hf := fieldName_segment k (QueryEscape val) (hp k (hkeys k (by simp))).1.2
    simp only [List.map_cons, List.map_nil, List.singleton_append, hf]

theorem fieldNames_body (p : DNSRequestParams) (hp : Built p) :
    fieldNames (DNSRequestParams.body p) = p.keys.insertionSort (· ≤ ·) := by
  unfold fieldNames DNSRequestParams.body
  rw [segments_Encode]
  exact fieldNames_segments p hp _
    (fun k hk => ((List.perm_insertionSort _ _).mem_iff).mp hk)

theorem segment_one_eq (p : DNSRequestParams) (hp : Built p) :
    ∀ seg ∈ segments (DNSRequestParams.body p), seg.count 61 = 1 := by
  intro seg hseg
  unfold DNSRequestParams.body at hseg
  rw [segments_Encode] at hseg
  simp only [encodedSegments, List.mem_flatMap] at hseg
  obtain ⟨k, hk, hmem⟩ := hseg
  have hk2 : k ∈ p.keys := ((List.perm_insertionSort _ _).mem_iff).mp hk
  obtain ⟨val, _, hs⟩ := keySegments_built p hp k hk2
  rw [hs, List.mem_singleton] at hmem
  subst hmem
  have h1 : List.count 61 k = 0 := List.count_eq_zero_of_not_mem (hp k hk2).1.2
  have h2 : List.count 61 (QueryEscape val) = 0 :=
    List.count_eq_zero_of_not_mem (fun h => (QueryEscape_clean _ _ h).2 rfl)
  simp [List.count_append, h1, h2]

theorem sortedKeys_strict (p : DNSRequestParams) :
    (p.keys.insertionSort (· ≤ ·)).Sorted (· < ·) :=
  (List.sorted_insertionSort (· ≤ ·) p.keys).lt_of_le
    ((List.perm_insertionSort (· ≤ ·) p.keys).nodup_iff.mpr p.keys_nodup)


theorem count_of_nodup (l : List GoString) (hl : l.Nodup) (f : GoString) (hf : f ∈ l) :
    l.count f = 1 := by
  induction l with
  | nil => simp at hf
  | cons a l ih =>
    rw [List.nodup_cons] at hl
    rw [List.count_cons]
    by_cases h : a = f
    · subst h
      rw [List.count_eq_zero_of_not_mem hl.1]
      simp
    · have hf2 : f ∈ l := by
        rcases List.mem_cons.mp hf with h2 | h2
        · exact absurd h2.symm h
        · exact h2
      rw [ih hl.2 hf2]
      simp [h]

/-! ## Decimal formatting and parsing -/

theorem formatDec_head (fuel n : Nat) (acc : GoString) (h : n < fuel) :
    ∃ d rest, formatDec fuel n acc = d :: rest ∧ 48 ≤ d ∧ d ≤ 57 := by
  induction fuel generalizing n acc with
  | zero => omega
  | succ fuel ih =>
    unfold formatDec
    split
    · exact ⟨48 + n, acc, rfl, by omega, by omega⟩
    · exact ih (n / 10) _ (by omega)

theorem formatDec_length (fuel n m : Nat) (acc : GoString) (h : n < fuel) (hm : 1 ≤ m)
    (hn : n < 10 ^ m) : (formatDec fuel n acc).length ≤ m + acc.length := by
  induction fuel generalizing n m acc with
  | zero => omega
  | succ fuel ih =>
    unfold formatDec
    split
    · simp only [List.length_cons]; omega
    · rename_i h10
      obtain ⟨m, rfl⟩ : ∃ k, m = k + 1 := ⟨m - 1, by omega⟩
      have hm2 : 1 ≤ m := by
        rcases Nat.eq_zero_or_pos m with h0 | h0
        · subst h0; simp at hn; omega
        · exact h0
      have hlt : n / 10 < 10 ^ m := by
        rw [Nat.div_lt_iff_lt_mul (by decide)]
        rw [pow_succ] at hn
        exact hn
      have := ih (n / 10) m ((48 + n % 10) :: acc) (by omega) hm2 hlt
      simp only [List.length_cons] at this
      omega

theorem atoiDigits_formatDec (fuel n : Nat) (acc : GoString) (h : n < fuel) :
    atoiDigits (formatDec fuel n acc) 0 = atoiDigits acc n := by
  induction fuel generalizing n acc with
  | zero => omega
  | succ fuel ih =>
    unfold formatDec
    split
    · rename_i h10
      have e : (48 + n + 256 - 48) % 256 = n := by omega
      simp only [atoiDigits, e]
      rw [if_neg (by omega)]
      simp
    · rename_i h10
      rw [ih (n / 10) _ (by omega)]
      have e : (48 + n % 10 + 256 - 48) % 256 = n % 10 := by omega
      simp only [atoiDigits, e]
      rw [if_neg (by omega)]
      congr 1
      omega

theorem Itoa_ofNat (n : Nat) : Itoa (n : Int) = formatDec (n + 1) n [] := by
  unfold Itoa
  rw [if_neg (by omega)]
  simp

/-- The decimal digits of a number below `10 ^ 18` go through the fast path of
`Atoi` and give the number back. -/
theorem Atoi_Itoa (n : Nat) (hn : n < 10 ^ 18) : Atoi (Itoa (n : Int)) = .ok (n : Int) := by
  rw [Itoa_ofNat]
  obtain ⟨d, rest, hd, hd1, hd2⟩ := formatDec_head (n + 1) n [] (by omega)
  have hlen := formatDec_length (n + 1) n 18 [] (by omega) (by omega) hn
  have hdig := atoiDigits_formatDec (n + 1) n [] (by omega)
  rw [hd] at hlen hdig
  rw [hd]
  simp only [List.length_cons, List.length_nil] at hlen
  have h45 : d ≠ 45 := by omega
  have h43 : d ≠ 43 := by omega
  unfold Atoi
  rw [if_pos ⟨by simp, by simp only [List.length_cons]; omega⟩]
  simp only [List.head?_cons, Option.some.injEq, h45, h43, or_self, if_false, false_and]
  rw [hdig]
  simp [atoiDigits]

theorem Itoa_ne_quotes (n : Nat) : Itoa (n : Int) ≠ str "\"\"" := by
  rw [Itoa_ofNat]
  obtain ⟨d, rest, hd, hd1, hd2⟩ := formatDec_head (n + 1) n [] (by omega)
  rw [hd]
  intro h
  have h34 : d = 34 := by
    have := congrArg List.head? h
    simpa [str] using this
  omega

/-- A string that opens with a double quote and has 3 to 18 bytes is a syntax
error for `Atoi`. -/
theorem Atoi_quoted (s : GoString) (h1 : 0 < s.length) (h2 : s.length < 17) :
    Atoi (34 :: s ++ [34]) = .error ⟨str "Atoi", 34 :: s ++ [34], .ErrSyntax⟩ := by
  unfold Atoi
  rw [if_pos ⟨by simp, by simp; omega⟩]
  simp [atoiDigits]

theorem atoiDigits_none (s : GoString) (hb : IsBytes s) (n : Nat)
    (h : s.all (fun d => 48 ≤ d ∧ d ≤ 57) = false) : atoiDigits s n = none := by
  induction s generalizing n with
  | nil => simp at h
  | cons c s ih =>
    have hc : c < 256 := hb c (by simp)
    unfold atoiDigits
    by_cases hd : 48 ≤ c ∧ c ≤ 57
    · rw [if_neg (by omega)]
      apply ih (fun x hx => hb x (by simp [hx]))
      simpa [hd] using h
    · rw [if_pos (by omega)]

theorem parseUintDigits_error (s : GoString) (n : Nat)
    (h : s.all (fun d => 48 ≤ d ∧ d ≤ 57) = false) : ∃ k, parseUintDigits s n = .error k := by
  induction s generalizing n with
  | nil => simp at h
  | cons c s ih =>
    unfold parseUintDigits
    by_cases hd : 48 ≤ c ∧ c ≤ 57
    · rw [if_pos hd]
      split
      · exact ⟨_, rfl⟩
      · split
        · exact ⟨_, rfl⟩
        · apply ih
          simpa [hd] using h
    · rw [if_neg hd]
      exact ⟨_, rfl⟩

theorem ParseInt_of_ParseUint_error (s s1 : GoString) (hs : s ≠ [])
    (hs1 : s1 = if s.head? = some 43 ∨ s.head? = some 45 then s.tail else s)
    (hk : ∃ k, ParseUint s1 = .error k) : ∃ k2, ParseInt s = .error k2 := by
  obtain ⟨k, hk⟩ := hk
  unfold ParseInt
  rw [if_neg hs]
  simp only [← hs1, hk]
  cases k with
  | ErrSyntax => exact ⟨_, rfl⟩
  | ErrRange =>
    simp only [intSize]
    by_cases hneg : s.head? = some 45
    · refine ⟨.ErrRange, ?_⟩
      simp [hneg]
    · refine ⟨.ErrRange, ?_⟩
      simp [hneg]

/-- Whatever is not a decimal integer literal is an error for `Atoi`. -/
theorem Atoi_not_decimal (b : GoString) (hb : IsBytes b) (h : isDecimalLiteral b = false) :
    ∃ k, Atoi b = .error ⟨str "Atoi", b, k⟩ := by
  unfold Atoi
  split
  · -- the fast path
    rename_i hlen
    cases b with
    | nil => simp at hlen
    | cons c rest =>
      have hrest : IsBytes rest := fun x hx => hb x (by simp [hx])
      by_cases hsign : c = 45 ∨ c = 43
      · have hsign2 : c = 43 ∨ c = 45 := hsign.symm
        simp only [List.head?_cons, Option.some.injEq, hsign, if_true, List.tail_cons, true_and]
        by_cases hr : rest.length < 1
        · rw [if_pos hr]; exact ⟨_, rfl⟩
        · rw [if_neg hr]
          have hne : rest ≠ [] := by
            intro h0; subst h0; simp at hr
          have hall : rest.all (fun d => 48 ≤ d ∧ d ≤ 57) = false := by
            simp only [isDecimalLiteral, hsign2, if_true] at h
            simpa [hne] using h
          rw [atoiDigits_none rest hrest 0 hall]
          exact ⟨_, rfl⟩
      · have hsign2 : ¬ (c = 43 ∨ c = 45) := fun h => hsign h.symm
        simp only [List.head?_cons, Option.some.injEq, hsign, if_false, false_and]
        have hall : (c :: rest).all (fun d => 48 ≤ d ∧ d ≤ 57) = false := by
          simp only [isDecimalLiteral, hsign2, if_false] at h
          simpa using h
        rw [atoiDigits_none (c :: rest) hb 0 hall]
        exact ⟨_, rfl⟩
  · -- the slow path
    have key : ∃ k2, ParseInt b = .error k2 := by
      cases b with
      | nil => exact ⟨.ErrSyntax, by simp [ParseInt]⟩
      | cons c rest =>
        by_cases hsign : c = 43 ∨ c = 45
        · apply ParseInt_of_ParseUint_error (c :: rest) rest (by simp) (by simp [hsign])
          unfold ParseUint
          by_cases hr : rest = []
          · rw [if_pos hr]; exact ⟨_, rfl⟩
          · rw [if_neg hr]
            apply parseUintDigits_error
            simp only [isDecimalLiteral, hsign, if_true] at h
            simpa [hr] using h
        · apply ParseInt_of_ParseUint_error (c :: rest) (c :: rest) (by simp) (by simp [hsign])
          unfold ParseUint
          rw [if_neg (by simp)]
          apply parseUintDigits_error
          simp only [isDecimalLiteral, hsign, if_false] at h
          simpa using h
    obtain ⟨k2, hk2⟩ := key
    rw [hk2]
    exact ⟨_, rfl⟩

/-! ## The client -/

theorem Client.do_eq {α : Type} (c : Client) (decode : Decoder α) (req : Request) (v : α) :
    c.do decode req v =
      match c.httpCli with
      | none => none
      | some httpCli =>
        match httpCli { req with Header := c.headers req.Header } with
        | .error err =>
          some { sent := { req with Header := c.headers req.Header }, v := v, err := some err }
        | .ok resp =>
          if resp.StatusCode ≠ StatusOK then
            some { sent := { req with Header := c.headers req.Header }, v := v,
                   err := some (str "unexpected response status: " ++ resp.Status) }
          else
            some { sent := { req with Header := c.headers req.Header },
                   v := (decode resp.Body v).1, err := (decode resp.Body v).2 } := rfl

theorem Client.do_some {α : Type} (c : Client) (h : HTTPClient) (hc : c.httpCli = some h)
    (decode : Decoder α) (req : Request) (v : α) :
    ∃ r, c.do decode req v = some r ∧ r.sent = { req with Header := c.headers req.Header } ∧
      (∀ resp, h r.sent = .ok resp → resp.StatusCode ≠ StatusOK →
        r.v = v ∧ r.err = some (str "unexpected response status: " ++ resp.Status)) := by
  rw [Client.do_eq]
  simp only [hc]
  cases hh : h { req with Header := c.headers req.Header } with
  | error e =>
    refine ⟨_, rfl, rfl, ?_⟩
    intro resp hresp
    simp only [hh] at hresp
    cases hresp
  | ok resp =>
    by_cases hs : resp.StatusCode ≠ StatusOK
    · dsimp only
      rw [if_pos hs]
      refine ⟨_, rfl, rfl, ?_⟩
      intro resp2 hresp _
      simp only [hh] at hresp
      cases hresp
      exact ⟨rfl, rfl⟩
    · dsimp only
      rw [if_neg hs]
      refine ⟨_, rfl, rfl, ?_⟩
      intro resp2 hresp hs2
      simp only [hh] at hresp
      cases hresp
      exact absurd hs2 hs

theorem Client.finish_sent {α : Type} (c : Client) (h : HTTPClient) (hc : c.httpCli = some h)
    (decode : Decoder α) (zero : α) (req : Request) :
    (c.finish decode zero (.ok req)).bind (fun r => r.sent) =
      some { req with Header := c.headers req.Header } := by
  obtain ⟨r, hr, hs, _⟩ := Client.do_some c h hc decode req zero
  simp [Client.finish, hr, hs]

/-- The fields of a client after the options were applied. -/
theorem foldl_options (opts : List Opt) (cli : Client) (acc : Option GoString)
    (h1 : cli.clientType = if acc.isSome then clientTypeRegistrar else clientTypeAdmin)
    (h2 : ∀ t, acc = some t → cli.oauthToken = t) :
    ((opts.map Opt.toOption).foldl (fun cli o => o cli) cli).pddToken = cli.pddToken ∧
    ((opts.map Opt.toOption).foldl (fun cli o => o cli) cli).clientType =
      (if (lastRegistrar acc opts).isSome then clientTypeRegistrar else clientTypeAdmin) ∧
    ∀ t, lastRegistrar acc opts = some t →
      ((opts.map Opt.toOption).foldl (fun cli o => o cli) cli).oauthToken = t := by
  induction opts generalizing cli acc with
  | nil => exact ⟨rfl, h1, h2⟩
  | cons o opts ih =>
    cases o with
    | AsRegistrar t =>
      have := ih (Yapdd.AsRegistrar t cli) (some t) rfl (fun u hu => by cases hu; rfl)
      simpa [lastRegistrar, Opt.toOption] using this
    | WithHTTPClient hc =>
      have := ih (Yapdd.WithHTTPClient hc cli) acc h1 h2
      simpa [lastRegistrar, Opt.toOption] using this

theorem New_fields (D : HTTPClient) (token : GoString) (opts : List Opt) :
    (∃ h, (New D token (opts.map Opt.toOption)).httpCli = some h) ∧
    (New D token (opts.map Opt.toOption)).pddToken = token ∧
    (New D token (opts.map Opt.toOption)).clientType =
      (if (lastRegistrar none opts).isSome then clientTypeRegistrar else clientTypeAdmin) ∧
    ∀ t, lastRegistrar none opts = some t →
      (New D token (opts.map Opt.toOption)).oauthToken = t := by
  have hf := foldl_options opts
    { httpCli := none, clientType := clientTypeAdmin, pddToken := token, oauthToken := [] }
    none rfl (fun t ht => by cases ht)
  unfold New
  simp only []
  split
  · exact ⟨⟨D, rfl⟩, hf.1, hf.2.1, hf.2.2⟩
  · rename_i hn
    refine ⟨?_, hf.1, hf.2.1, hf.2.2⟩
    rw [Option.isNone_iff_eq_none] at hn
    exact Option.ne_none_iff_exists'.mp hn

/-- The request each call sends, for a client that has an HTTP client. -/
theorem Client.request_eq (c : Client) (h : HTTPClient) (hc : c.httpCli = some h)
    (decA : Decoder DNSResponse) (decL : Decoder DNSListResponse) (op : Operation) :
    ∃ req, c.request decA decL op = some req ∧ req.Header = c.headers ∅ ∧
      req.URL = c.getURL (str "dns") op.action
        (match op with
          | .list d => some (DNSRequestParams.domain NewDNSParams d)
          | _ => none) := by
  cases op with
  | add d t p =>
    exact ⟨_, Client.finish_sent c h hc decA DNSResponse.zero _, rfl, rfl⟩
  | list d =>
    exact ⟨_, Client.finish_sent c h hc decL DNSListResponse.zero _, rfl, rfl⟩
  | edit d id p =>
    exact ⟨_, Client.finish_sent c h hc decA DNSResponse.zero _, rfl, rfl⟩
  | del d id =>
    exact ⟨_, Client.finish_sent c h hc decA DNSResponse.zero _, rfl, rfl⟩

theorem takeWhile_ne_append (x : Nat) (k rest : GoString) (hk : x ∉ k) :
    (k ++ x :: rest).takeWhile (· ≠ x) = k := by
  induction k with
  | nil => rw [List.nil_append, List.takeWhile_cons_of_neg (by simp)]
  | cons a k ih =>
    have ha : a ≠ x := fun h => hk (by simp [h])
    have hk2 : x ∉ k := fun h => hk (by simp [h])
    rw [List.cons_append, List.takeWhile_cons_of_pos (by simpa using ha), ih hk2]

/-- The header a client leaves on a request built by `http.NewRequest`. -/
theorem Client.headers_lookup (c : Client) (k : GoString) :
    (c.headers ∅).lookup k =
      if k = str "Content-Type" then some [str "application/x-www-form-urlencoded"]
      else if k = str "PddToken" then some [c.pddToken]
      else if k = str "Authorization" then
        (if c.clientType = clientTypeRegistrar then some [str "OAuth " ++ c.oauthToken] else none)
      else none := by
  have h1 : str "PddToken" ≠ str "Content-Type" := by decide
  have h2 : str "Authorization" ≠ str "Content-Type" := by decide
  have h3 : str "Authorization" ≠ str "PddToken" := by decide
  unfold Client.headers Header.Set
  by_cases hct : k = str "Content-Type"
  · subst hct
    rw [if_pos rfl]
    split
    · rw [AList.lookup_insert_ne h2.symm, AList.lookup_insert_ne h1.symm, AList.lookup_insert]
    · rw [AList.lookup_insert_ne h1.symm, AList.lookup_insert]
  · rw [if_neg hct]
    by_cases hp : k = str "PddToken"
    · subst hp
      rw [if_pos rfl]
      split
      · rw [AList.lookup_insert_ne h3.symm, AList.lookup_insert]
      · rw [AList.lookup_insert]
    · rw [if_neg hp]
      by_cases ha : k = str "Authorization"
      · subst ha
        rw [if_pos rfl]
        split
        · rw [AList.lookup_insert]
        · rw [AList.lookup_insert_ne hp, AList.lookup_insert_ne hct, AList.lookup_empty]
      · rw [if_neg ha]
        split
        · rw [AList.lookup_insert_ne ha, AList.lookup_insert_ne hp, AList.lookup_insert_ne hct,
            AList.lookup_empty]
        · rw [AList.lookup_insert_ne hp, AList.lookup_insert_ne hct, AList.lookup_empty]

/-! ## Failed calls -/

theorem Client.do_fail {α : Type} (c : Client) (h : HTTPClient) (hc : c.httpCli = some h)
    (decode : Decoder α) (req : Request) (v : α) :
    ∃ r, c.do decode req v = some r ∧
      (∀ e, h r.sent = .error e → r.v = v ∧ r.err = some e) ∧
      (∀ resp, h r.sent = .ok resp → resp.StatusCode ≠ StatusOK →
        r.v = v ∧ r.err = some (str "unexpected response status: " ++ resp.Status)) := by
  rw [Client.do_eq]
  simp only [hc]
  cases hh : h { req with Header := c.headers req.Header } with
  | error e =>
    refine ⟨_, rfl, ?_, ?_⟩
    · intro e2 he
      simp only [hh] at he
      cases he
      exact ⟨rfl, rfl⟩
    · intro resp hresp
      simp only [hh] at hresp
      cases hresp
  | ok resp =>
    by_cases hs : resp.StatusCode ≠ StatusOK
    · dsimp only
      rw [if_pos hs]
      refine ⟨_, rfl, ?_, ?_⟩
      · intro e he
        simp only [hh] at he
        cases he
      · intro resp2 hresp _
        simp only [hh] at hresp
        cases hresp
        exact ⟨rfl, rfl⟩
    · dsimp only
      rw [if_neg hs]
      refine ⟨_, rfl, ?_, ?_⟩
      · intro e he
        simp only [hh] at he
        cases he
      · intro resp2 hresp hs2
        simp only [hh] at hresp
        cases hresp
        exact absurd hs2 hs

/-- A call whose request was built returns a response object; when the HTTP
client fails or answers with a status other than 200, that object is the zero
value the call started from. -/
theorem Client.finish_fail {α : Type} (c : Client) (h : HTTPClient) (hc : c.httpCli = some h)
    (decode : Decoder α) (zero : α) (req : Request) :
    ∃ call sent, c.finish decode zero (.ok req) = some call ∧ call.sent = some sent ∧
      (∀ e, h sent = .error e → call.resp = some zero ∧ call.err = some e) ∧
      (∀ resp, h sent = .ok resp → resp.StatusCode ≠ 200 →
        call.resp = some zero ∧
        call.err = some (str "unexpected response status: " ++ resp.Status)) := by
  obtain ⟨r, hr, h1, h2⟩ := Client.do_fail c h hc decode req zero
  refine ⟨{ sent := some r.sent, resp := some r.v, err := r.err }, r.sent, ?_, rfl, ?_, ?_⟩
  · simp [Client.finish, hr]
  · intro e he
    obtain ⟨hv, herr⟩ := h1 e he
    exact ⟨by rw [hv], herr⟩
  · intro resp hresp hs
    obtain ⟨hv, herr⟩ := h2 resp hresp hs
    exact ⟨by rw [hv], herr⟩

/-! ## Every machine integer parses back -/

theorem parseUintDigits_formatDec (fuel n : Nat) (acc : GoString) (h : n < fuel)
    (hn : n < 2 ^ 64) : parseUintDigits (formatDec fuel n acc) 0 = parseUintDigits acc n := by
  induction fuel generalizing n acc with
  | zero => omega
  | succ fuel ih =>
    unfold formatDec
    split
    · rename_i h10
      have e : 48 + n - 48 = n := by omega
      simp only [parseUintDigits, e]
      rw [if_pos (by omega), if_neg (by norm_num), if_neg (by omega)]
      congr 1
      omega
    · rename_i h10
      rw [ih (n / 10) _ (by omega) (by omega)]
      have e : 48 + n % 10 - 48 = n % 10 := by omega
      have e2 : n / 10 * 10 + n % 10 = n := by omega
      simp only [parseUintDigits, e, e2]
      rw [if_pos (by omega), if_neg (by norm_num at hn ⊢; omega), if_neg (by norm_num at hn ⊢; omega)]
      congr 1
      norm_num at hn ⊢
      omega

/-- The digits of a natural number, as `Atoi` reads them on either path. -/
theorem Atoi_digits (n : Nat) (neg : Bool) (hn : if neg then n ≤ 2 ^ 63 else n < 2 ^ 63) :
    Atoi ((if neg then [45] else []) ++ formatDec (n + 1) n []) =
      .ok (if neg then -(n : Int) else (n : Int)) := by
  obtain ⟨d, rest, hd, hd1, hd2⟩ := formatDec_head (n + 1) n [] (by omega)
  have hfast := atoiDigits_formatDec (n + 1) n [] (by omega)
  have hn64 : n < 2 ^ 64 := by
    cases neg <;> simp at hn <;> norm_num at hn ⊢ <;> omega
  have hslow := parseUintDigits_formatDec (n + 1) n [] (by omega) hn64
  rw [hd] at hfast hslow
  rw [hd]
  have h45 : d ≠ 45 := by omega
  have h43 : d ≠ 43 := by omega
  cases neg with
  | false =>
    simp only [Bool.false_eq_true, if_false, List.nil_append] at hn ⊢
    unfold Atoi
    split
    · simp only [List.head?_cons, Option.some.injEq, h45, h43, or_self, if_false, false_and]
      rw [hfast]
      simp [atoiDigits]
    · unfold ParseInt ParseUint
      simp only [List.head?_cons, Option.some.injEq, h45, h43, or_self, if_false,
        reduceCtorEq, hslow]
      simp only [parseUintDigits, intSize]
      norm_num at hn ⊢
      rw [if_neg (by omega)]
  | true =>
    simp only [if_true, List.singleton_append] at hn ⊢
    unfold Atoi
    split
    · simp only [List.head?_cons, Option.some.injEq, or_true, true_or, if_true, List.tail_cons,
        true_and, List.length_cons]
      rw [if_neg (by omega), hfast]
      simp [atoiDigits]
    · unfold ParseInt ParseUint
      simp only [List.head?_cons, or_true, if_true, List.tail_cons, reduceCtorEq, if_false, hslow]
      simp only [parseUintDigits, intSize]
      norm_num at hn ⊢
      rw [if_neg (by omega)]

theorem Atoi_Itoa_int (i : Int) (h1 : -(2 ^ 63) ≤ i) (h2 : i < 2 ^ 63) :
    Atoi (Itoa i) = .ok i := by
  unfold Itoa
  split
  · rename_i hneg
    have := Atoi_digits i.natAbs true (by simp; omega)
    simp only [if_true, List.singleton_append] at this
    rw [this]
    congr 1
    omega
  · rename_i hneg
    have := Atoi_digits i.natAbs false (by simp; omega)
    simp only [Bool.false_eq_true, if_false, List.nil_append] at this
    rw [this]
    congr 1
    omega

theorem Itoa_ne_quotes_int (i : Int) : Itoa i ≠ str "\"\"" := by
  unfold Itoa
  split
  · intro h
    have := congrArg List.head? h
    simp [str] at this
  · obtain ⟨d, rest, hd, hd1, hd2⟩ := formatDec_head (i.natAbs + 1) i.natAbs [] (by omega)
    rw [hd]
    intro h
    have h34 : d = 34 := by
      have := congrArg List.head? h
      simpa [str] using this
    omega

/-! ## A bound field is a segment of the encoding -/

theorem segment_mem_Encode (q : Values) (k v : GoString) (h : q.lookup k = some [v]) :
    QueryEscape k ++ [61] ++ QueryEscape v ∈ segments q.Encode := by
  rw [segments_Encode]
  simp only [encodedSegments, List.mem_flatMap]
  refine ⟨k, ?_, ?_⟩
  · rw [(List.perm_insertionSort _ _).mem_iff, ← AList.mem_keys, ← AList.lookup_isSome, h]
    rfl
  · simp [keySegments, h]

/-! ## Unescaping what `QueryEscape` wrote -/

theorem upperhex_ishex (d : Nat) (h : d < 16) : ishex (upperhex d) = true := by
  revert d
  decide

theorem unhex_upperhex (d : Nat) (h : d < 16) : unhex (upperhex d) = d := by
  revert d
  decide

set_option maxRecDepth 100000 in
theorem nibbles_join (c : Nat) (h : c < 256) : ((c / 16) <<< 4) % 256 ||| c % 16 = c := by
  revert c
  decide

theorem shouldEscape_37 (c : Nat) (h : shouldEscape c = false) : c ≠ 37 ∧ c ≠ 43 := by
  unfold shouldEscape at h
  split at h
  · omega
  · split at h
    · omega
    · simp at h

theorem unescapeCheck_ne (c : Nat) (rest : GoString) (h : c ≠ 37) :
    unescapeCheck (c :: rest) = unescapeCheck rest := by
  rcases rest with _ | ⟨a, _ | ⟨b, rest⟩⟩ <;> simp [unescapeCheck, h]

theorem unescapeCheck_pct (a b : Nat) (rest : GoString) (ha : ishex a = true)
    (hb : ishex b = true) : unescapeCheck (37 :: a :: b :: rest) = unescapeCheck rest := by
  simp [unescapeCheck, ha, hb]

theorem unescapeBuild_ne (c : Nat) (rest : GoString) (h : c ≠ 37) :
    unescapeBuild (c :: rest) = (if c = 43 then 32 else c) :: unescapeBuild rest := by
  rcases rest with _ | ⟨a, _ | ⟨b, rest⟩⟩ <;> by_cases h2 : c = 43 <;> simp [unescapeBuild, h, h2]

theorem unescapeBuild_pct (a b : Nat) (rest : GoString) :
    unescapeBuild (37 :: a :: b :: rest) =
      ((unhex a <<< 4) % 256 ||| unhex b) :: unescapeBuild rest := by
  simp [unescapeBuild]

theorem unescapeCheck_escapeByte (c : Nat) (hc : c < 256) (rest : GoString) :
    unescapeCheck (escapeByte c ++ rest) = unescapeCheck rest := by
  unfold escapeByte
  split
  · split
    · exact unescapeCheck_ne 43 rest (by decide)
    · exact unescapeCheck_pct _ _ rest (upperhex_ishex (c / 16) (by omega))
        (upperhex_ishex (c % 16) (by omega))
  · rename_i h
    have := shouldEscape_37 c (by simpa using h)
    exact unescapeCheck_ne c rest this.1

theorem unescapeBuild_escapeByte (c : Nat) (hc : c < 256) (rest : GoString) :
    unescapeBuild (escapeByte c ++ rest) = c :: unescapeBuild rest := by
  unfold escapeByte
  split
  · split
    · rename_i h32
      rw [h32]
      exact unescapeBuild_ne 43 rest (by decide)
    · have h1 := unhex_upperhex (c / 16) (by omega)
      have h2 := unhex_upperhex (c % 16) (by omega)
      have := unescapeBuild_pct (upperhex (c / 16)) (upperhex (c % 16)) rest
      rw [h1, h2, nibbles_join c hc] at this
      exact this
  · rename_i h
    have h37 := shouldEscape_37 c (by simpa using h)
    have := unescapeBuild_ne c rest h37.1
    rw [if_neg h37.2] at this
    exact this

theorem unescapeCheck_QueryEscape (v : GoString) (hv : IsBytes v) :
    unescapeCheck (QueryEscape v) = none := by
  induction v with
  | nil => rfl
  | cons c v ih =>
    have : QueryEscape (c :: v) = escapeByte c ++ QueryEscape v := by simp [QueryEscape]
    rw [this, unescapeCheck_escapeByte c (hv c (by simp))]
    exact ih (fun x hx => hv x (by simp [hx]))

theorem unescapeBuild_QueryEscape (v : GoString) (hv : IsBytes v) :
    unescapeBuild (QueryEscape v) = v := by
  induction v with
  | nil => rfl
  | cons c v ih =>
    have : QueryEscape (c :: v) = escapeByte c ++ QueryEscape v := by simp [QueryEscape]
    rw [this, unescapeBuild_escapeByte c (hv c (by simp)), ih (fun x hx => hv x (by simp [hx]))]

theorem unescapeBuild_plain (s : GoString) (h1 : 37 ∉ s) (h2 : 43 ∉ s) : unescapeBuild s = s := by
  induction s with
  | nil => rfl
  | cons c s ih =>
    have hc1 : c ≠ 37 := fun h => h1 (by simp [h])
    have hc2 : c ≠ 43 := fun h => h2 (by simp [h])
    rw [unescapeBuild_ne c s hc1, if_neg hc2,
      ih (fun h => h1 (by simp [h])) (fun h => h2 (by simp [h]))]

/-- Unescaping undoes escaping, on every byte string. -/
theorem QueryUnescape_QueryEscape (v : GoString) (hv : IsBytes v) :
    QueryUnescape (QueryEscape v) = .ok v := by
  unfold QueryUnescape
  rw [unescapeCheck_QueryEscape v hv]
  have hb := unescapeBuild_QueryEscape v hv
  dsimp only
  by_cases h : 37 ∉ QueryEscape v ∧ 43 ∉ QueryEscape v
  · rw [if_pos h]
    have e : QueryEscape v = v := (unescapeBuild_plain _ h.1 h.2).symm.trans hb
    rw [e]
  · rw [if_neg h, hb]

theorem upperhex_ne_59 (d : Nat) : upperhex d ≠ 59 := by
  unfold upperhex
  split <;> omega

theorem QueryEscape_no_semicolon (s : GoString) : 59 ∉ QueryEscape s := by
  intro hx
  simp only [QueryEscape, List.mem_flatMap] at hx
  obtain ⟨c, _, hc⟩ := hx
  unfold escapeByte at hc
  split at hc
  · split at hc
    · simp at hc
    · simp only [List.mem_cons, List.mem_singleton, List.not_mem_nil, or_false] at hc
      rcases hc with h | h | h
      · omega
      · exact upperhex_ne_59 _ h.symm
      · exact upperhex_ne_59 _ h.symm
  · rename_i h
    simp only [List.mem_singleton] at hc
    subst hc
    unfold shouldEscape at h
    split at h
    · omega
    · split at h
      · omega
      · simp at h

/-! ## Cutting -/

theorem Cut_append (x : Nat) (k rest : GoString) (hk : x ∉ k) :
    Cut (k ++ x :: rest) x = (k, rest, true) := by
  induction k with
  | nil => simp [Cut]
  | cons a k ih =>
    have ha : a ≠ x := fun h => hk (by simp [h])
    have := ih (fun h => hk (by simp [h]))
    simp [Cut, ha, this]

theorem Cut_none (x : Nat) (k : GoString) (hk : x ∉ k) : Cut k x = (k, [], false) := by
  induction k with
  | nil => simp [Cut]
  | cons a k ih =>
    have ha : a ≠ x := fun h => hk (by simp [h])
    have := ih (fun h => hk (by simp [h]))
    simp [Cut, ha, this]

theorem Cut_intercalate (seg : GoString) (segs : List GoString) (h : 38 ∉ seg) :
    (Cut ([38].intercalate (seg :: segs)) 38).1 = seg ∧
    (Cut ([38].intercalate (seg :: segs)) 38).2.1 = [38].intercalate segs := by
  cases segs with
  | nil =>
    have e : [38].intercalate [seg] = seg := by simp [List.intercalate]
    rw [e, Cut_none 38 seg h]
    simp [List.intercalate]
  | cons t segs =>
    have e : [38].intercalate (seg :: t :: segs) = seg ++ 38 :: [38].intercalate (t :: segs) := by
      rw [intercalate_cons, intercalate_cons]
      simp
    rw [e, Cut_append 38 seg _ h]
    simp

theorem intercalate_length (seg : GoString) (segs : List GoString) :
    ([38].intercalate segs).length ≤ ([38].intercalate (seg :: segs)).length := by
  cases segs with
  | nil => simp [List.intercalate]
  | cons t segs =>
    have e : [38].intercalate (seg :: t :: segs) = seg ++ 38 :: [38].intercalate (t :: segs) := by
      rw [intercalate_cons, intercalate_cons]
      simp
    rw [e]
    simp
    omega

/-! ## Parsing the encoding of a built parameter set -/

theorem Setter.field_query (c : Setter) :
    QueryUnescape c.field = .ok c.field ∧ 38 ∉ c.field ∧ 59 ∉ c.field ∧ 61 ∉ c.field ∧
      QueryEscape c.field = c.field := by
  cases c <;> simp only [Setter.field] <;> exact ⟨rfl, by decide, by decide, by decide, by decide⟩

theorem BuiltBytes_apply (c : Setter) (hc : IsBytes c.value) (p : DNSRequestParams)
    (hp : BuiltBytes p) : BuiltBytes (c.apply p) := by
  intro k hk
  rw [Setter.apply_eq, Values.Set] at hk ⊢
  by_cases h : k = c.field
  · subst h
    exact ⟨⟨c, rfl⟩, c.value, hc, AList.lookup_insert _⟩
  · rw [← AList.mem_keys, AList.mem_insert, AList.mem_keys] at hk
    rw [AList.lookup_insert_ne h]
    exact hp k (hk.resolve_left h)

theorem BuiltBytes_applyAll (cs : List Setter) (hcs : ∀ c ∈ cs, IsBytes c.value)
    (p : DNSRequestParams) (hp : BuiltBytes p) : BuiltBytes (applyAll cs p) := by
  induction cs generalizing p with
  | nil => exact hp
  | cons c cs ih =>
    exact ih (fun x hx => hcs x (by simp [hx])) _ (BuiltBytes_apply c (hcs c (by simp)) p hp)

theorem BuiltBytes_new : BuiltBytes NewDNSParams := by
  intro k hk
  simp [NewDNSParams] at hk

theorem lookup_applyAll (cs : List Setter) (p : DNSRequestParams) (acc : Option GoString)
    (k : GoString) (h : p.lookup k = acc.map (fun v => [v])) :
    (applyAll cs p).lookup k = (lastValue acc cs k).map (fun v => [v]) := by
  induction cs generalizing p acc with
  | nil => exact h
  | cons c cs ih =>
    have hstep : (c.apply p).lookup k =
        (if c.field = k then some c.value else acc).map (fun v => [v]) := by
      rw [Setter.apply_eq, Values.Set]
      by_cases hk : c.field = k
      · rw [if_pos hk, ← hk, AList.lookup_insert]
        rfl
      · rw [if_neg hk, AList.lookup_insert_ne (fun e => hk e.symm), h]
    have := ih (c.apply p) _ hstep
    simpa [applyAll, lastValue] using this

/-- One round of the loop on a segment `key=value` written by the encoder. -/
theorem parseQuery_segment (fuel : Nat) (m : Values) (query rest : GoString)
    (err : Option QueryError) (k v : GoString) (hv : IsBytes v)
    (hk : QueryUnescape k = .ok k ∧ 38 ∉ k ∧ 59 ∉ k ∧ 61 ∉ k ∧ QueryEscape k = k)
    (h1 : (Cut query 38).1 = k ++ [61] ++ QueryEscape v) (h2 : (Cut query 38).2.1 = rest) :
    parseQuery (fuel + 1) m query err =
      parseQuery fuel (m.insert k ((m.lookup k).getD [] ++ [v])) rest err := by
  have hq : query ≠ [] := by
    intro h
    rw [h] at h1
    simp [Cut] at h1
  have hsemi : 59 ∉ k ++ [61] ++ QueryEscape v := by
    intro h
    simp only [List.mem_append, List.mem_singleton] at h
    rcases h with (h | h) | h
    · exact hk.2.2.1 h
    · omega
    · exact QueryEscape_no_semicolon v h
  have hne : k ++ [61] ++ QueryEscape v ≠ [] := by simp
  have hcut : Cut (k ++ [61] ++ QueryEscape v) 61 = (k, QueryEscape v, true) := by
    have := Cut_append 61 k (QueryEscape v) hk.2.2.2.1
    simpa using this
  rw [parseQuery, if_neg hq, h1, h2, if_neg hsemi, if_neg hne, hcut]
  simp only [hk.1, QueryUnescape_QueryEscape v hv]

theorem parseQuery_nil (fuel : Nat) (m : Values) (err : Option QueryError) :
    parseQuery fuel m [] err = (m, err) := by
  cases fuel <;> simp [parseQuery]

/-- The loop over the segments of a list of distinct keys of a built set adds
exactly the bindings of these keys. -/
theorem parseQuery_keys (p : DNSRequestParams) (hp : BuiltBytes p) (hp2 : Built p)
    (keys : List GoString) (hnd : keys.Nodup) (hkeys : ∀ k ∈ keys, k ∈ p.keys)
    (fuel : Nat) (m : Values) (err : Option QueryError)
    (hfuel : ([38].intercalate (keys.flatMap (keySegments p))).length < fuel)
    (hm : ∀ k ∈ keys, m.lookup k = none) :
    ∃ m2, parseQuery fuel m ([38].intercalate (keys.flatMap (keySegments p))) err = (m2, err) ∧
      ∀ k, m2.lookup k = if k ∈ keys then p.lookup k else m.lookup k := by
  induction keys generalizing fuel m with
  | nil =>
    refine ⟨m, ?_, fun k => by simp⟩
    simp only [List.flatMap_nil]
    exact parseQuery_nil fuel m err
  | cons k keys ih =>
    obtain ⟨val, hval, hseg⟩ := keySegments_built p hp2 k (hkeys k (by simp))
    obtain ⟨⟨c, hc⟩, val2, hbytes, hval2⟩ := hp k (hkeys k (by simp))
    have hvv : val2 = val := by
      rw [hval] at hval2
      simpa using hval2.symm
    subst hvv
    have hfield := c.field_query
    rw [hc] at hfield
    have hflat : (k :: keys).flatMap (keySegments p) =
        (k ++ [61] ++ QueryEscape val2) :: keys.flatMap (keySegments p) := by
      rw [List.flatMap_cons, hseg]
      rfl
    rw [hflat] at hfuel ⊢
    have h38 : 38 ∉ k ++ [61] ++ QueryEscape val2 := by
      intro h
      simp only [List.mem_append, List.mem_singleton] at h
      rcases h with (h | h) | h
      · exact hfield.2.1 h
      · omega
      · exact (QueryEscape_clean _ _ h).1 rfl
    obtain ⟨hc1, hc2⟩ := Cut_intercalate _ (keys.flatMap (keySegments p)) h38
    obtain ⟨fuel, rfl⟩ : ∃ f, fuel = f + 1 := ⟨fuel - 1, by omega⟩
    rw [parseQuery_segment fuel m _ _ err k val2 hbytes hfield hc1 hc2]
    rw [List.nodup_cons] at hnd
    have hmk : m.lookup k = none := hm k (by simp)
    have hlen : ([38].intercalate ((k ++ [61] ++ QueryEscape val2) ::
        keys.flatMap (keySegments p))).length ≥
        ([38].intercalate (keys.flatMap (keySegments p))).length + 1 := by
      cases hs : keys.flatMap (keySegments p) with
      | nil =>
        simp [List.intercalate]
        omega
      | cons t segs =>
        rw [intercalate_cons ([38]) _ (t :: segs), intercalate_cons ([38]) t segs]
        simp
        omega
    obtain ⟨m2, hm2, hlook⟩ := ih hnd.2 (fun x hx => hkeys x (by simp [hx])) fuel
      (m.insert k ((m.lookup k).getD [] ++ [val2])) (by omega)
      (fun x hx => by
        have hxk : x ≠ k := fun e => hnd.1 (e ▸ hx)
        rw [AList.lookup_insert_ne hxk]
        exact hm x (by simp [hx]))
    refine ⟨m2, hm2, ?_⟩
    intro x
    rw [hlook x]
    by_cases hx : x ∈ keys
    · have : x ∈ k :: keys := by simp [hx]
      rw [if_pos hx, if_pos this]
    · rw [if_neg hx]
      by_cases hxk : x = k
      · subst hxk
        rw [if_pos (by simp), AList.lookup_insert, hmk, hval]
        rfl
      · rw [if_neg (by simp [hx, hxk]), AList.lookup_insert_ne hxk]

theorem Built_of_BuiltBytes (p : DNSRequestParams) (hp : BuiltBytes p) : Built p := by
  intro k hk
  obtain ⟨⟨c, hc⟩, val, _, hval⟩ := hp k hk
  have := c.field_query
  rw [hc] at this
  exact ⟨⟨this.2.2.2.2, this.2.2.2.1⟩, val, hval⟩

/-- Parsing the encoding of a built set gives its bindings back, without
error. -/
theorem ParseQuery_Encode (p : DNSRequestParams) (hp : BuiltBytes p) :
    (ParseQuery (Values.Encode p)).2 = none ∧
    ∀ k, (ParseQuery (Values.Encode p)).1.lookup k = p.lookup k := by
  have hp2 := Built_of_BuiltBytes p hp
  have hperm := List.perm_insertionSort (· ≤ ·) p.keys
  obtain ⟨m2, hm2, hlook⟩ := parseQuery_keys p hp hp2 (p.keys.insertionSort (· ≤ ·))
    (hperm.nodup_iff.mpr p.keys_nodup) (fun k hk => hperm.mem_iff.mp hk)
    (([38].intercalate ((p.keys.insertionSort (· ≤ ·)).flatMap (keySegments p))).length + 1)
    ∅ none (by omega) (fun k _ => AList.lookup_empty k)
  have e : ParseQuery (Values.Encode p) = (m2, none) := by
    unfold ParseQuery
    rw [Encode_eq_intercalate]
    exact hm2
  rw [e]
  refine ⟨rfl, ?_⟩
  intro k
  rw [hlook k]
  split
  · rfl
  · rename_i hk
    rw [AList.lookup_empty]
    symm
    rw [AList.lookup_eq_none, AList.mem_keys]
    exact fun h => hk (hperm.mem_iff.mpr h)

/-! # The claims -/

/-! ## The serialized parameter set -/

/-- C1. For every chain of setter calls applied to a fresh `NewDNSParams()`,
the output of `body()` splits at `&` into segments that each contain exactly
one `=`; the field names of these segments are in strictly ascending byte-wise
lexicographic order; and a field name occurs exactly once when one of the calls
was its setter and does not occur otherwise. The order of the calls plays no
part. -/
theorem body_fields_sorted_once (cs : List Setter) :
    (∀ seg ∈ segments (DNSRequestParams.body (applyAll cs NewDNSParams)), seg.count 61 = 1) ∧
    (fieldNames (DNSRequestParams.body (applyAll cs NewDNSParams))).Sorted (· < ·) ∧
    (∀ f : GoString,
      (fieldNames (DNSRequestParams.body (applyAll cs NewDNSParams))).count f =
        if f ∈ cs.map Setter.field then 1 else 0) := by
  have hb : Built (applyAll cs NewDNSParams) := Built_applyAll cs _ Built_new
  refine ⟨segment_one_eq _ hb, ?_, ?_⟩
  · rw [fieldNames_body _ hb]
    exact sortedKeys_strict _
  · intro f
    rw [fieldNames_body _ hb]
    have hperm := List.perm_insertionSort (· ≤ ·) (applyAll cs NewDNSParams).keys
    have hmem : f ∈ (applyAll cs NewDNSParams).keys ↔ f ∈ cs.map Setter.field := by
      rw [mem_applyAll]
      simp [NewDNSParams]
    split
    · rename_i h
      exact count_of_nodup _ (sortedKeys_strict _).nodup f (hperm.mem_iff.mpr (hmem.mpr h))
    · rename_i h
      exact List.count_eq_zero_of_not_mem (fun h2 => h (hmem.mp (hperm.mem_iff.mp h2)))

/-- C2. Calling a setter twice overwrites: for every parameter set `p` and two
calls `c1`, `c2` of the same setter, the set after `c1` then `c2` binds the
field to the single value of `c2`, and its serialization is the serialization
after `c2` alone. Setters are total, so no call fails. -/
theorem setter_twice_last_wins (p : DNSRequestParams) (c1 c2 : Setter)
    (h : c1.field = c2.field) :
    (c2.apply (c1.apply p)).lookup c2.field = some [c2.value] ∧
    DNSRequestParams.body (c2.apply (c1.apply p)) = DNSRequestParams.body (c2.apply p) := by
  have e : c2.apply (c1.apply p) = c2.apply p := by
    rw [Setter.apply_eq c2, Setter.apply_eq c1, Setter.apply_eq c2, h]
    exact AList.insert_insert _
  rw [e]
  refine ⟨?_, rfl⟩
  rw [Setter.apply_eq]
  exact AList.lookup_insert _

/-- C2, at the input of the package's test: `Content("content will be
ignored")` followed by `Content("content")` serializes `content=content`. -/
theorem setter_twice_last_wins_witness :
    (Setter.Content (str "content will be ignored")).field = (Setter.Content (str "content")).field ∧
    ((Setter.Content (str "content")).apply
        ((Setter.Content (str "content will be ignored")).apply NewDNSParams)).lookup
        (Setter.Content (str "content")).field = some [(Setter.Content (str "content")).value] ∧
    DNSRequestParams.body ((Setter.Content (str "content")).apply
        ((Setter.Content (str "content will be ignored")).apply NewDNSParams)) =
      DNSRequestParams.body ((Setter.Content (str "content")).apply NewDNSParams) ∧
    DNSRequestParams.body ((Setter.Content (str "content")).apply
        ((Setter.Content (str "content will be ignored")).apply NewDNSParams)) =
      str "content=content" :=
  ⟨rfl, (setter_twice_last_wins NewDNSParams (Setter.Content (str "content will be ignored"))
    (Setter.Content (str "content")) rfl).1,
   (setter_twice_last_wins NewDNSParams (Setter.Content (str "content will be ignored"))
    (Setter.Content (str "content")) rfl).2, by decide⟩

/-- C3. `UnmarshalJSON` applied to the two bytes `""` returns no error and
leaves the priority absent, `Get` giving `(0, false)`, whatever the receiver
held before. -/
theorem unmarshal_empty_string_absent (p : DNSPriority) :
    (p.UnmarshalJSON (str "\"\"")).2 = none ∧
    (p.UnmarshalJSON (str "\"\"")).1.Get = (0, false) := by
  simp [DNSPriority.UnmarshalJSON, DNSPriority.Get]

/-- C4, as stated, fails: on the four bytes `"20"` (digits in double quotes)
`UnmarshalJSON` returns the syntax error of `strconv.Atoi` and the receiver
keeps what it held, so `Get` does not give `(20, true)`. -/
theorem unmarshal_quoted_twenty_fails :
    DNSPriority.UnmarshalJSON ⟨0, false⟩ (str "\"20\"") =
      (⟨0, false⟩, some ⟨str "Atoi", str "\"20\"", .ErrSyntax⟩) ∧
    (DNSPriority.UnmarshalJSON ⟨0, false⟩ (str "\"20\"")).1.Get ≠ (20, true) := by
  decide

/-- C4, amended. For every `n` with `0 ≤ n ≤ 65535`, `UnmarshalJSON` applied to
the decimal digits of `n` enclosed in double quotes fails with the syntax error
of `strconv.Atoi` on that input, and the receiver is left as it was. -/
theorem unmarshal_quoted_number_error (p : DNSPriority) (n : Nat) (h : n ≤ 65535) :
    p.UnmarshalJSON (34 :: Itoa (n : Int) ++ [34]) =
      (p, some ⟨str "Atoi", 34 :: Itoa (n : Int) ++ [34], .ErrSyntax⟩) := by
  have hlen : (Itoa (n : Int)).length ≤ 5 := by
    rw [Itoa_ofNat]
    have := formatDec_length (n + 1) n 5 [] (by omega) (by omega) (by norm_num; omega)
    simpa using this
  have hpos : 0 < (Itoa (n : Int)).length := by
    rw [Itoa_ofNat]
    obtain ⟨d, rest, hd, _, _⟩ := formatDec_head (n + 1) n [] (by omega)
    rw [hd]; simp
  have hne : (34 :: Itoa (n : Int) ++ [34]) ≠ str "\"\"" := by
    intro he
    have := congrArg List.length he
    simp [str] at this
    rw [this] at hpos
    simp at hpos
  unfold DNSPriority.UnmarshalJSON
  rw [if_neg hne, Atoi_quoted _ hpos (by omega)]

/-- C4, amended, at `n = 20`. -/
theorem unmarshal_quoted_number_error_witness :
    20 ≤ 65535 ∧
    DNSPriority.UnmarshalJSON ⟨7, true⟩ (34 :: Itoa ((20 : Nat) : Int) ++ [34]) =
      (⟨7, true⟩, some ⟨str "Atoi", 34 :: Itoa ((20 : Nat) : Int) ++ [34], .ErrSyntax⟩) :=
  ⟨by decide, unmarshal_quoted_number_error ⟨7, true⟩ 20 (by decide)⟩

/-- C5. For every `n` with `0 ≤ n ≤ 65535`, `UnmarshalJSON` applied to the bare
decimal digits of `n` returns no error and `Get` then gives `(n, true)`; this
differs from what `Get` gives after decoding `""`, so a present `0` is told
apart from an absent priority. -/
theorem unmarshal_bare_number_present (p : DNSPriority) (n : Nat) (h : n ≤ 65535) :
    (p.UnmarshalJSON (Itoa (n : Int))).2 = none ∧
    (p.UnmarshalJSON (Itoa (n : Int))).1.Get = (n, true) ∧
    (p.UnmarshalJSON (Itoa (n : Int))).1.Get ≠ (p.UnmarshalJSON (str "\"\"")).1.Get := by
  have e : p.UnmarshalJSON (Itoa (n : Int)) = (⟨n, true⟩, none) := by
    unfold DNSPriority.UnmarshalJSON
    rw [if_neg (Itoa_ne_quotes n), Atoi_Itoa n (by omega)]
    have : ((n : Int) % 65536).toNat = n := by omega
    simp [this]
  rw [e]
  simp [DNSPriority.UnmarshalJSON, DNSPriority.Get]

/-- C5, at `n = 0`: the bare `0` decodes to `(0, true)`. -/
theorem unmarshal_bare_number_present_witness :
    0 ≤ 65535 ∧
    (DNSPriority.UnmarshalJSON ⟨7, false⟩ (Itoa ((0 : Nat) : Int))).2 = none ∧
    (DNSPriority.UnmarshalJSON ⟨7, false⟩ (Itoa ((0 : Nat) : Int))).1.Get = (0, true) ∧
    (DNSPriority.UnmarshalJSON ⟨7, false⟩ (Itoa ((0 : Nat) : Int))).1.Get ≠
      (DNSPriority.UnmarshalJSON ⟨7, false⟩ (str "\"\"")).1.Get :=
  ⟨by decide, unmarshal_bare_number_present ⟨7, false⟩ 0 (by decide)⟩

/-- C6. For every byte string `b` that is neither the two bytes `""` nor a
decimal integer literal (an optional sign followed by digits), `UnmarshalJSON`
returns an error of `strconv.Atoi` about `b` and no priority: the receiver is
left as it was. -/
theorem unmarshal_non_numeric_error (p : DNSPriority) (b : GoString) (hb : IsBytes b)
    (h1 : b ≠ str "\"\"") (h2 : isDecimalLiteral b = false) :
    ∃ k, p.UnmarshalJSON b = (p, some ⟨str "Atoi", b, k⟩) := by
  obtain ⟨k, hk⟩ := Atoi_not_decimal b hb h2
  refine ⟨k, ?_⟩
  unfold DNSPriority.UnmarshalJSON
  rw [if_neg h1, hk]

/-- C6, at the input `"abc"` (in double quotes). -/
theorem unmarshal_non_numeric_error_witness :
    IsBytes (str "\"abc\"") ∧ str "\"abc\"" ≠ str "\"\"" ∧
    isDecimalLiteral (str "\"abc\"") = false ∧
    ∃ k, DNSPriority.UnmarshalJSON ⟨5, true⟩ (str "\"abc\"") =
      (⟨5, true⟩, some ⟨str "Atoi", str "\"abc\"", k⟩) :=
  ⟨by unfold IsBytes; decide, by decide, by decide,
    unmarshal_non_numeric_error ⟨5, true⟩ (str "\"abc\"") (by unfold IsBytes; decide)
      (by decide) (by decide)⟩

/-! ## The requests of the client -/

/-- C7. For every client built by `New`, every domain, record type and
parameter set, `DNSAdd` sends a `POST` whose body is the `Encode` serialization
of the parameter set in which `type` is bound to the record type, `domain` to
the domain argument, and every other field to what `params` held; with
`Subdomain("www").Content("1.2.3.4")`, type `A` and domain `domain.com` the body
is `content=1.2.3.4&domain=domain.com&subdomain=www&type=A`. -/
theorem DNSAdd_post_body (D : HTTPClient) (token : GoString) (opts : List Opt)
    (decode : Decoder DNSResponse) (domain : GoString) (recordType : DNSRecordType)
    (params : DNSRequestParams) :
    (∃ req,
      ((New D token (opts.map Opt.toOption)).DNSAdd decode domain recordType params).2.bind
        (fun r => r.sent) = some req ∧
      req.Method = MethodPost ∧
      req.Body = some (Values.Encode
        ((New D token (opts.map Opt.toOption)).DNSAdd decode domain recordType params).1)) ∧
    ((New D token (opts.map Opt.toOption)).DNSAdd decode domain recordType params).1.lookup
      (str "type") = some [recordType] ∧
    ((New D token (opts.map Opt.toOption)).DNSAdd decode domain recordType params).1.lookup
      (str "domain") = some [domain] ∧
    (∀ k, k ≠ str "type" → k ≠ str "domain" →
      ((New D token (opts.map Opt.toOption)).DNSAdd decode domain recordType params).1.lookup k =
        params.lookup k) ∧
    ((((New D token (opts.map Opt.toOption)).DNSAdd decode (str "domain.com") DNSTypeA
        (DNSRequestParams.Content (DNSRequestParams.Subdomain NewDNSParams (str "www"))
          (str "1.2.3.4"))).2.bind (fun r => r.sent)).bind (fun req => req.Body) =
      some (str "content=1.2.3.4&domain=domain.com&subdomain=www&type=A")) := by
  obtain ⟨⟨h, hc⟩, _⟩ := New_fields D token opts
  have htd : str "type" ≠ str "domain" := by decide
  refine ⟨⟨_, Client.finish_sent _ h hc decode DNSResponse.zero _, rfl, rfl⟩, ?_, ?_, ?_, ?_⟩
  · show AList.lookup (str "type") (AList.insert (str "domain") [domain]
      (AList.insert (str "type") [recordType] params)) = _
    rw [AList.lookup_insert_ne htd, AList.lookup_insert]
  · show AList.lookup (str "domain") (AList.insert (str "domain") [domain]
      (AList.insert (str "type") [recordType] params)) = _
    rw [AList.lookup_insert]
  · intro k hk1 hk2
    show AList.lookup k (AList.insert (str "domain") [domain]
      (AList.insert (str "type") [recordType] params)) = _
    rw [AList.lookup_insert_ne hk2, AList.lookup_insert_ne hk1]
  · have hs := Client.finish_sent _ h hc decode DNSResponse.zero
      { Method := MethodPost,
        URL := (New D token (opts.map Opt.toOption)).getURL (str "dns") (str "add") none,
        Body := some (DNSRequestParams.body
          (DNSRequestParams.domain (DNSRequestParams.recordType
            (DNSRequestParams.Content (DNSRequestParams.Subdomain NewDNSParams (str "www"))
              (str "1.2.3.4")) DNSTypeA) (str "domain.com"))),
        Header := ∅ }
    have hb : DNSRequestParams.body
          (DNSRequestParams.domain (DNSRequestParams.recordType
            (DNSRequestParams.Content (DNSRequestParams.Subdomain NewDNSParams (str "www"))
              (str "1.2.3.4")) DNSTypeA) (str "domain.com")) =
        str "content=1.2.3.4&domain=domain.com&subdomain=www&type=A" := by decide
    show Option.bind (Option.bind (Client.finish _ decode DNSResponse.zero (.ok _)) _) _ = _
    rw [hs]
    simp only [Option.bind, hb]

/-- C8. For every client built by `New` from a token and exported options, and
every call, the request handed to the HTTP client carries exactly these
headers: `Content-Type: application/x-www-form-urlencoded`, `PddToken` with the
token given to `New`, and `Authorization: OAuth <oauthToken>` exactly when an
`AsRegistrar` option was applied, with the token of the last one; without an
`AsRegistrar` option there is no `Authorization` header. -/
theorem request_headers_exact (D : HTTPClient) (token : GoString) (opts : List Opt)
    (decA : Decoder DNSResponse) (decL : Decoder DNSListResponse) (op : Operation) :
    ∃ req, (New D token (opts.map Opt.toOption)).request decA decL op = some req ∧
      ∀ k, req.Header.lookup k =
        if k = str "Content-Type" then some [str "application/x-www-form-urlencoded"]
        else if k = str "PddToken" then some [token]
        else if k = str "Authorization" then
          (lastRegistrar none opts).map (fun t => [str "OAuth " ++ t])
        else none := by
  obtain ⟨⟨h, hc⟩, htok, htype, hoauth⟩ := New_fields D token opts
  obtain ⟨req, hreq, hhead, _⟩ := Client.request_eq _ h hc decA decL op
  refine ⟨req, hreq, ?_⟩
  intro k
  rw [hhead, Client.headers_lookup, htok, htype]
  cases hl : lastRegistrar none opts with
  | none =>
    have hne : clientTypeAdmin ≠ clientTypeRegistrar := by decide
    simp [hne]
  | some t =>
    rw [hoauth t hl]
    simp

/-- C9. For every client built by `New` from a token and exported options, and
every call among add, list, edit and del, the URL of the request, up to its
query string, is `https://pddimp.yandex.ru/api2/{role}/dns/{action}`, with role
`registrar` when an `AsRegistrar` option was applied and `admin` otherwise. -/
theorem request_url_role_action (D : HTTPClient) (token : GoString) (opts : List Opt)
    (decA : Decoder DNSResponse) (decL : Decoder DNSListResponse) (op : Operation) :
    ∃ req, (New D token (opts.map Opt.toOption)).request decA decL op = some req ∧
      beforeQuery req.URL =
        str "https://pddimp.yandex.ru/api2/" ++
          (if (lastRegistrar none opts).isSome then str "registrar" else str "admin") ++
          str "/dns/" ++ op.action := by
  obtain ⟨⟨h, hc⟩, _, htype, _⟩ := New_fields D token opts
  obtain ⟨req, hreq, _, hurl⟩ := Client.request_eq _ h hc decA decL op
  refine ⟨req, hreq, ?_⟩
  rw [hurl]
  unfold Client.getURL beforeQuery
  rw [htype]
  cases op with
  | list d =>
    simp only [Operation.action]
    split <;>
    · rw [show str "?" = [63] from rfl, List.append_assoc _ [63] _, List.singleton_append,
        takeWhile_ne_append 63 _ _ (by decide)]
      decide
  | add d t p => simp only [Operation.action]; split <;> decide
  | edit d i p => simp only [Operation.action]; split <;> decide
  | del d i => simp only [Operation.action]; split <;> decide

/-- C10. For every client with an HTTP client, every request and result object,
`do` returns; and whenever the response to the request it sent has a status
code other than 200, the result object is left as it was (the decoder plays no
part, whatever the body holds) and the error is `unexpected response status: `
followed by the status text of the response. -/
theorem do_unexpected_status {α : Type} (c : Client) (h : HTTPClient) (hc : c.httpCli = some h)
    (decode : Decoder α) (req : Request) (v : α) :
    ∃ r, c.do decode req v = some r ∧
      ∀ resp, h r.sent = .ok resp → resp.StatusCode ≠ 200 →
        r.v = v ∧ r.err = some (str "unexpected response status: " ++ resp.Status) := by
  obtain ⟨r, hr, _, hall⟩ := Client.do_some c h hc decode req v
  exact ⟨r, hr, hall⟩

/-- C10, at status 503 with a body that is valid JSON and a decoder that would
overwrite the result object. -/
theorem do_unexpected_status_witness :
    (Client.mk (some (fun _ => .ok ⟨503, str "503 Service Unavailable", str "\x7b\x7d"⟩))
        clientTypeAdmin (str "token") []).httpCli =
      some (fun _ => .ok ⟨503, str "503 Service Unavailable", str "\x7b\x7d"⟩) ∧
    ∃ r, (Client.mk (some (fun _ => .ok ⟨503, str "503 Service Unavailable", str "\x7b\x7d"⟩))
        clientTypeAdmin (str "token") []).do (fun _ _ => ((1 : Nat), none))
        ⟨MethodPost, str "https://pddimp.yandex.ru/api2/admin/dns/edit", none, ∅⟩ (0 : Nat) =
        some r ∧
      r.v = 0 ∧ r.err = some (str "unexpected response status: 503 Service Unavailable") := by
  obtain ⟨r, hr, hall⟩ := do_unexpected_status
    (Client.mk (some (fun _ => .ok ⟨503, str "503 Service Unavailable", str "\x7b\x7d"⟩))
      clientTypeAdmin (str "token") [])
    (fun _ => .ok ⟨503, str "503 Service Unavailable", str "\x7b\x7d"⟩) rfl
    (fun _ _ => ((1 : Nat), none))
    ⟨MethodPost, str "https://pddimp.yandex.ru/api2/admin/dns/edit", none, ∅⟩ (0 : Nat)
  exact ⟨rfl, r, hr, hall ⟨503, str "503 Service Unavailable", str "\x7b\x7d"⟩ rfl (by decide)⟩

/-! ## Failed calls -/

/-- C11. For every client with an HTTP client, each of `DNSAdd`, `DNSList`,
`DNSEdit` and `DNSDel` returns a call result with the request it sent; whenever
the HTTP client answers that request with an error, or with a response whose
status is not 200, the call returns that error (respectively the
unexpected-status error) together with a non-nil response object whose fields
are all zero: empty domain, record id 0, no record (no records), empty success
and error strings. -/
theorem failed_call_zero_response (c : Client) (h : HTTPClient) (hc : c.httpCli = some h)
    (decA : Decoder DNSResponse) (decL : Decoder DNSListResponse) (domain : GoString)
    (recordType : DNSRecordType) (recordID : Nat) (params : DNSRequestParams) :
    (∃ call sent, (c.DNSAdd decA domain recordType params).2 = some call ∧
      call.sent = some sent ∧
      (∀ e, h sent = .error e →
        call.resp = some { Domain := [], RecordID := 0, Record := none, Success := [], Error := [] } ∧
        call.err = some e) ∧
      (∀ resp, h sent = .ok resp → resp.StatusCode ≠ 200 →
        call.resp = some { Domain := [], RecordID := 0, Record := none, Success := [], Error := [] } ∧
        call.err = some (str "unexpected response status: " ++ resp.Status))) ∧
    (∃ call sent, c.DNSList decL domain = some call ∧
      call.sent = some sent ∧
      (∀ e, h sent = .error e →
        call.resp = some { Domain := [], Records := [], Success := [], Error := [] } ∧
        call.err = some e) ∧
      (∀ resp, h sent = .ok resp → resp.StatusCode ≠ 200 →
        call.resp = some { Domain := [], Records := [], Success := [], Error := [] } ∧
        call.err = some (str "unexpected response status: " ++ resp.Status))) ∧
    (∃ call sent, (c.DNSEdit decA domain recordID params).2 = some call ∧
      call.sent = some sent ∧
      (∀ e, h sent = .error e →
        call.resp = some { Domain := [], RecordID := 0, Record := none, Success := [], Error := [] } ∧
        call.err = some e) ∧
      (∀ resp, h sent = .ok resp → resp.StatusCode ≠ 200 →
        call.resp = some { Domain := [], RecordID := 0, Record := none, Success := [], Error := [] } ∧
        call.err = some (str "unexpected response status: " ++ resp.Status))) ∧
    (∃ call sent, c.DNSDel decA domain recordID = some call ∧
      call.sent = some sent ∧
      (∀ e, h sent = .error e →
        call.resp = some { Domain := [], RecordID := 0, Record := none, Success := [], Error := [] } ∧
        call.err = some e) ∧
      (∀ resp, h sent = .ok resp → resp.StatusCode ≠ 200 →
        call.resp = some { Domain := [], RecordID := 0, Record := none, Success := [], Error := [] } ∧
        call.err = some (str "unexpected response status: " ++ resp.Status))) :=
  ⟨Client.finish_fail c h hc decA DNSResponse.zero _,
   Client.finish_fail c h hc decL DNSListResponse.zero _,
   Client.finish_fail c h hc decA DNSResponse.zero _,
   Client.finish_fail c h hc decA DNSResponse.zero _⟩

/-- C11, at the two failures of the package's tests: `DNSEdit` against an HTTP
client that answers `503 Service Unavailable`, and `DNSAdd` against one that
fails with the error `fail`; the decoder given would fill the response in. -/
theorem failed_call_zero_response_witness :
    (Client.mk (some (fun _ => .ok ⟨503, str "503 Service Unavailable", str "\x7b\x7d"⟩))
        clientTypeAdmin (str "token") []).httpCli =
      some (fun _ => .ok ⟨503, str "503 Service Unavailable", str "\x7b\x7d"⟩) ∧
    (∃ call, ((Client.mk (some (fun _ => .ok ⟨503, str "503 Service Unavailable", str "\x7b\x7d"⟩))
        clientTypeAdmin (str "token") []).DNSEdit
          (fun _ r => ({ r with Success := str "ok" }, none)) (str "domain.com") 1
          (DNSRequestParams.Content NewDNSParams (str "1.2.3.4"))).2 = some call ∧
      call.resp = some { Domain := [], RecordID := 0, Record := none, Success := [], Error := [] } ∧
      call.err = some (str "unexpected response status: 503 Service Unavailable")) ∧
    (Client.mk (some (fun _ => .error (str "fail"))) clientTypeAdmin (str "token") []).httpCli =
      some (fun _ => .error (str "fail")) ∧
    (∃ call, ((Client.mk (some (fun _ => .error (str "fail"))) clientTypeAdmin (str "token")
        []).DNSAdd (fun _ r => ({ r with Success := str "ok" }, none)) (str "domain.com") DNSTypeA
          (DNSRequestParams.Content NewDNSParams (str "1.2.3.4"))).2 = some call ∧
      call.resp = some { Domain := [], RecordID := 0, Record := none, Success := [], Error := [] } ∧
      call.err = some (str "fail")) := by
  obtain ⟨_, _, ⟨call, sent, hcall, _, _, hst⟩, _⟩ := failed_call_zero_response
    (Client.mk (some (fun _ => .ok ⟨503, str "503 Service Unavailable", str "\x7b\x7d"⟩))
      clientTypeAdmin (str "token") [])
    (fun _ => .ok ⟨503, str "503 Service Unavailable", str "\x7b\x7d"⟩) rfl
    (fun _ r => ({ r with Success := str "ok" }, none)) (fun _ r => (r, none))
    (str "domain.com") DNSTypeA 1 (DNSRequestParams.Content NewDNSParams (str "1.2.3.4"))
  obtain ⟨⟨call2, sent2, hcall2, _, herr, _⟩, _⟩ := failed_call_zero_response
    (Client.mk (some (fun _ => .error (str "fail"))) clientTypeAdmin (str "token") [])
    (fun _ => .error (str "fail")) rfl
    (fun _ r => ({ r with Success := str "ok" }, none)) (fun _ r => (r, none))
    (str "domain.com") DNSTypeA 1 (DNSRequestParams.Content NewDNSParams (str "1.2.3.4"))
  exact ⟨rfl,
    ⟨call, hcall, hst ⟨503, str "503 Service Unavailable", str "\x7b\x7d"⟩ rfl (by decide)⟩,
    rfl, ⟨call2, hcall2, herr (str "fail") rfl⟩⟩

/-! ## The priority is not range-checked -/

/-- C13. `UnmarshalJSON` does not range-check what `strconv.Atoi` returns: for
every integer `i` of the machine range `-2^63 ≤ i < 2^63`, decoding the decimal
literal of `i` returns no error and leaves the priority present with value
`i mod 2^16`; more generally, whenever `Atoi` accepts the input with result
`j`, the priority is present with value `j mod 2^16`. So `65556` decodes to
present 20, `-1` to present 65535, and `65536` to present 0, the same as
decoding `0`. -/
theorem unmarshal_no_range_check (p : DNSPriority) (i : Int) (h1 : -(2 ^ 63) ≤ i)
    (h2 : i < 2 ^ 63) :
    p.UnmarshalJSON (Itoa i) = ({ value := (i % 2 ^ 16).toNat, ok := true }, none) ∧
    (∀ b j, Atoi b = .ok j →
      p.UnmarshalJSON b = ({ value := (j % 2 ^ 16).toNat, ok := true }, none)) ∧
    (p.UnmarshalJSON (str "65556")).1.Get = (20, true) ∧
    (p.UnmarshalJSON (str "-1")).1.Get = (65535, true) ∧
    (p.UnmarshalJSON (str "65536")).1.Get = (0, true) ∧
    (p.UnmarshalJSON (str "65536")).1.Get = (p.UnmarshalJSON (str "0")).1.Get := by
  have hgen : ∀ b j, Atoi b = .ok j →
      p.UnmarshalJSON b = ({ value := (j % 2 ^ 16).toNat, ok := true }, none) := by
    intro b j hb
    have hne : b ≠ str "\"\"" := by
      intro h
      have hq : Atoi (str "\"\"") = .error ⟨str "Atoi", str "\"\"", .ErrSyntax⟩ := rfl
      rw [h, hq] at hb
      cases hb
    unfold DNSPriority.UnmarshalJSON
    rw [if_neg hne, hb]
  have e1 : Atoi (str "65556") = .ok 65556 := rfl
  have e2 : Atoi (str "-1") = .ok (-1) := rfl
  have e3 : Atoi (str "65536") = .ok 65536 := rfl
  have e4 : Atoi (str "0") = .ok 0 := rfl
  refine ⟨hgen _ _ (Atoi_Itoa_int i h1 h2), hgen, ?_, ?_, ?_, ?_⟩
  · rw [hgen _ _ e1]; decide
  · rw [hgen _ _ e2]; decide
  · rw [hgen _ _ e3]; decide
  · rw [hgen _ _ e3, hgen _ _ e4]; decide

/-- C13, at `i = 65556`: the literal decodes to the present priority
`65556 mod 2^16 = 20`. -/
theorem unmarshal_no_range_check_witness :
    -(2 ^ 63) ≤ (65556 : Int) ∧ (65556 : Int) < 2 ^ 63 ∧
    DNSPriority.UnmarshalJSON ⟨0, false⟩ (Itoa 65556) =
      ({ value := ((65556 : Int) % 2 ^ 16).toNat, ok := true }, none) ∧
    ((65556 : Int) % 2 ^ 16).toNat = 20 :=
  ⟨by decide, by decide,
    (unmarshal_no_range_check ⟨0, false⟩ 65556 (by decide) (by decide)).1, by decide⟩

/-! ## The caller's parameter set after a call -/

/-- C14. `DNSAdd` and `DNSEdit` act on the caller's parameter set: after
`DNSAdd(domain, type, params)` it binds `domain` to the domain and `type` to
the record type, after `DNSEdit(domain, recordID, params)` it binds `domain`
and `record_id`, and every other field is as before. Hence a set passed to
`DNSAdd` and then to `DNSEdit` still binds `type`, and the body of the edit
request has the segment `type=<record type>`; starting from
`Content("1.2.3.4")` with type `A`, the edit body is
`content=1.2.3.4&domain=domain.com&record_id=1&type=A`. -/
theorem calls_modify_params_in_place (D : HTTPClient) (token : GoString) (opts : List Opt)
    (decode : Decoder DNSResponse) (domain domain2 : GoString) (recordType : DNSRecordType)
    (recordID : Nat) (params : DNSRequestParams) :
    ((New D token (opts.map Opt.toOption)).DNSAdd decode domain recordType params).1.lookup
      (str "domain") = some [domain] ∧
    ((New D token (opts.map Opt.toOption)).DNSAdd decode domain recordType params).1.lookup
      (str "type") = some [recordType] ∧
    (∀ k, k ≠ str "type" → k ≠ str "domain" →
      ((New D token (opts.map Opt.toOption)).DNSAdd decode domain recordType params).1.lookup k =
        params.lookup k) ∧
    ((New D token (opts.map Opt.toOption)).DNSEdit decode domain recordID params).1.lookup
      (str "domain") = some [domain] ∧
    ((New D token (opts.map Opt.toOption)).DNSEdit decode domain recordID params).1.lookup
      (str "record_id") = some [Itoa (Int.ofNat recordID)] ∧
    (∀ k, k ≠ str "record_id" → k ≠ str "domain" →
      ((New D token (opts.map Opt.toOption)).DNSEdit decode domain recordID params).1.lookup k =
        params.lookup k) ∧
    (∃ req body,
      ((New D token (opts.map Opt.toOption)).DNSEdit decode domain2 recordID
        ((New D token (opts.map Opt.toOption)).DNSAdd decode domain recordType params).1).2.bind
        (fun r => r.sent) = some req ∧
      req.Body = some body ∧
      str "type" ++ [61] ++ QueryEscape recordType ∈ segments body) ∧
    ((((New D token (opts.map Opt.toOption)).DNSEdit decode (str "domain.com") 1
        ((New D token (opts.map Opt.toOption)).DNSAdd decode (str "domain.com") DNSTypeA
          (DNSRequestParams.Content NewDNSParams (str "1.2.3.4"))).1).2.bind
        (fun r => r.sent)).bind (fun req => req.Body) =
      some (str "content=1.2.3.4&domain=domain.com&record_id=1&type=A")) := by
  obtain ⟨⟨h, hc⟩, _⟩ := New_fields D token opts
  have htd : str "type" ≠ str "domain" := by decide
  have hrd : str "record_id" ≠ str "domain" := by decide
  have htr : str "type" ≠ str "record_id" := by decide
  refine ⟨?_, ?_, ?_, ?_, ?_, ?_, ?_, ?_⟩
  · show AList.lookup (str "domain") (AList.insert (str "domain") [domain]
      (AList.insert (str "type") [recordType] params)) = _
    rw [AList.lookup_insert]
  · show AList.lookup (str "type") (AList.insert (str "domain") [domain]
      (AList.insert (str "type") [recordType] params)) = _
    rw [AList.lookup_insert_ne htd, AList.lookup_insert]
  · intro k hk1 hk2
    show AList.lookup k (AList.insert (str "domain") [domain]
      (AList.insert (str "type") [recordType] params)) = _
    rw [AList.lookup_insert_ne hk2, AList.lookup_insert_ne hk1]
  · show AList.lookup (str "domain") (AList.insert (str "domain") [domain]
      (AList.insert (str "record_id") [Itoa (Int.ofNat recordID)] params)) = _
    rw [AList.lookup_insert]
  · show AList.lookup (str "record_id") (AList.insert (str "domain") [domain]
      (AList.insert (str "record_id") [Itoa (Int.ofNat recordID)] params)) = _
    rw [AList.lookup_insert_ne hrd, AList.lookup_insert]
  · intro k hk1 hk2
    show AList.lookup k (AList.insert (str "domain") [domain]
      (AList.insert (str "record_id") [Itoa (Int.ofNat recordID)] params)) = _
    rw [AList.lookup_insert_ne hk2, AList.lookup_insert_ne hk1]
  · refine ⟨_, _, Client.finish_sent _ h hc decode DNSResponse.zero _, rfl, ?_⟩
    have hq : QueryEscape (str "type") = str "type" := by decide
    have := segment_mem_Encode
      (AList.insert (str "domain") [domain2]
        (AList.insert (str "record_id") [Itoa (Int.ofNat recordID)]
          (AList.insert (str "domain") [domain]
            (AList.insert (str "type") [recordType] params))))
      (str "type") recordType
      (by rw [AList.lookup_insert_ne htd, AList.lookup_insert_ne htr,
            AList.lookup_insert_ne htd, AList.lookup_insert])
    rw [hq] at this
    exact this
  · have hs := Client.finish_sent _ h hc decode DNSResponse.zero
      { Method := MethodPost,
        URL := (New D token (opts.map Opt.toOption)).getURL (str "dns") (str "edit") none,
        Body := some (DNSRequestParams.body
          (DNSRequestParams.domain (DNSRequestParams.recordID
            (DNSRequestParams.domain (DNSRequestParams.recordType
              (DNSRequestParams.Content NewDNSParams (str "1.2.3.4")) DNSTypeA)
              (str "domain.com")) 1) (str "domain.com"))),
        Header := ∅ }
    have hb : DNSRequestParams.body
          (DNSRequestParams.domain (DNSRequestParams.recordID
            (DNSRequestParams.domain (DNSRequestParams.recordType
              (DNSRequestParams.Content NewDNSParams (str "1.2.3.4")) DNSTypeA)
              (str "domain.com")) 1) (str "domain.com")) =
        str "content=1.2.3.4&domain=domain.com&record_id=1&type=A" := by decide
    refine Eq.trans (congrArg (fun o => Option.bind o (fun req : Request => req.Body)) hs) ?_
    simp only [Option.bind, hb]

/-! ## Round trip of the parameter set -/

/-- C12. For every chain of setter calls applied to a fresh `NewDNSParams()`
whose values are byte strings (whatever bytes they hold), parsing the output of
`body()` with `url.ParseQuery` returns no error and a mapping that binds
exactly the fields that were set, each to the single value of its last setter
call. -/
theorem parse_body_round_trip (cs : List Setter) (hb : ∀ c ∈ cs, IsBytes c.value) :
    (ParseQuery (DNSRequestParams.body (applyAll cs NewDNSParams))).2 = none ∧
    ∀ k, (ParseQuery (DNSRequestParams.body (applyAll cs NewDNSParams))).1.lookup k =
      (lastValue none cs k).map (fun v => [v]) := by
  have hp := BuiltBytes_applyAll cs hb NewDNSParams BuiltBytes_new
  obtain ⟨h1, h2⟩ := ParseQuery_Encode (applyAll cs NewDNSParams) hp
  refine ⟨h1, ?_⟩
  intro k
  unfold DNSRequestParams.body
  rw [h2 k]
  exact lookup_applyAll cs NewDNSParams none k (AList.lookup_empty k)

/-- C12, at a chain with special bytes, an empty value and a field set twice:
`content` comes back as the value of its last call, `target` as the empty
string, and `domain`, never set, is not bound. -/
theorem parse_body_round_trip_witness :
    (∀ c ∈ roundTripExample, IsBytes c.value) ∧
    (ParseQuery (DNSRequestParams.body (applyAll roundTripExample NewDNSParams))).2 = none ∧
    (ParseQuery (DNSRequestParams.body (applyAll roundTripExample NewDNSParams))).1.lookup
      (str "content") = some [str "a b&c=d%+" ++ [195, 169]] ∧
    (ParseQuery (DNSRequestParams.body (applyAll roundTripExample NewDNSParams))).1.lookup
      (str "target") = some [[]] ∧
    (ParseQuery (DNSRequestParams.body (applyAll roundTripExample NewDNSParams))).1.lookup
      (str "domain") = none :=
  ⟨by unfold IsBytes; decide,
   (parse_body_round_trip roundTripExample (by unfold IsBytes; decide)).1,
   ((parse_body_round_trip roundTripExample (by unfold IsBytes; decide)).2 (str "content")).trans
     (by decide),
   ((parse_body_round_trip roundTripExample (by unfold IsBytes; decide)).2 (str "target")).trans
     (by decide),
   ((parse_body_round_trip roundTripExample (by unfold IsBytes; decide)).2 (str "domain")).trans
     (by decide)⟩

end Yapdd
